import Mathlib

/-!
Verification of the incremental multi-source join synchronizer
(`final_db` loaders/utils and `epss_db/load.py`).

The Python code is shallowly embedded: dictionaries become association
lists (keys unique, insertion ordered), JSON-style values become the
inductive `PyVal`, DynamoDB tables become functions `String → Option _`,
and the fallible store is driven by explicit outcome scripts.  Strings
are modelled over their character lists; character classes (`\d`, `\s`,
`str.strip`, case folding) are modelled over ASCII, which is the range
the repository's identifiers and timestamps use.
-/

namespace CveUtils

/-- Characters treated as whitespace by Python's `str.strip` and by `\s`
in the regex, restricted to ASCII. -/
def isPySpace (c : Char) : Bool :=
  c = ' ' || c = '\t' || c = '\n' || c = '\x0d' || c = '\x0b' || c = '\x0c'

/-- The separator class `[-_\s]` of the CVE regex. -/
def isSep (c : Char) : Bool :=
  c = '-' || c = '_' || isPySpace c

/-- `str.strip()`: drop whitespace from both ends. -/
def pyStrip (s : String) : String :=
  String.mk (((s.data.dropWhile (fun c => isPySpace c)).reverse.dropWhile
    (fun c => isPySpace c)).reverse)

/-- `str.zfill(n)`: left-pad with zeros to width `n` (inputs here are
digit strings, so the sign-handling branch of `zfill` never fires). -/
def zfill (n : Nat) (s : String) : String :=
  if n ≤ s.length then s else String.mk (List.replicate (n - s.length) '0' ++ s.data)

/-- Greedy optional separator `[-_\s]?` with regex backtracking: try the
continuation after consuming a separator first, fall back to not
consuming it. -/
def optSep (k : List Char → Option α) : List Char → Option α
  | [] => k []
  | c :: r =>
    if isSep c then
      match k r with
      | some a => some a
      | none => k (c :: r)
    else k (c :: r)

/-- `(\d{4})`: exactly four digits. -/
def exact4 : List Char → Option (List Char × List Char)
  | a :: b :: c :: d :: rest =>
    if a.isDigit && b.isDigit && c.isDigit && d.isDigit then
      some ([a, b, c, d], rest)
    else none
  | _ => none

/-- `(\d{4,7})` in final position: greedily take up to seven leading
digits, failing below four.  Nothing follows the group in the pattern,
so no backtracking into it is possible. -/
def seqPart (r : List Char) : Option (List Char) :=
  let ds := (r.takeWhile (fun c => c.isDigit)).take 7
  if 4 ≤ ds.length then some ds else none

/-- The `(\d{4})[-_\s]?(\d{4,7})` tail of the pattern. -/
def yearSeq (r : List Char) : Option (List Char × List Char) :=
  match exact4 r with
  | none => none
  | some (y, r1) =>
    match optSep seqPart r1 with
    | none => none
    | some s => some (y, s)

/-- One anchored attempt of `(?i)cve[-_\s]?(\d{4})[-_\s]?(\d{4,7})`,
returning the two capture groups. -/
def matchCveAt : List Char → Option (List Char × List Char)
  | c1 :: c2 :: c3 :: rest =>
    if c1.toLower = 'c' && c2.toLower = 'v' && c3.toLower = 'e' then
      optSep yearSeq rest
    else none
  | _ => none

/-- `re.search`: try each start position left to right. -/
def searchCve : List Char → Option (List Char × List Char)
  | [] => none
  | c :: rest =>
    match matchCveAt (c :: rest) with
    | some a => some a
    | none => searchCve rest

/-- `normalize_cve` from `final_db/utils/cve_utils.py`.  `none` models a
Python `None` argument (and any non-string, which the `isinstance`
guard also rejects); the empty string is falsy and rejected by
`if not value`. -/
def normalize_cve : Option String → Option String
  | none => none
  | some v =>
    if v = "" then none
    else
      match searchCve (pyStrip v).data with
      | none => none
      | some (y, s) =>
        some ("CVE-" ++ String.mk y ++ "-" ++ zfill 4 (String.mk s))

end CveUtils

namespace CveUtils

example : normalize_cve (some "CVE-2021-1") = none := by decide
example : normalize_cve (some "cve_2021_0001") = some "CVE-2021-0001" := by decide
example : normalize_cve (some " CVE 2021 12345 ") = some "CVE-2021-12345" := by decide
example : normalize_cve (some "x CVE-2021-123456789") = some "CVE-2021-1234567" := by decide

end CveUtils

namespace CveUtils

lemma isPySpace_eq_false_of_isDigit {c : Char} (h : c.isDigit = true) :
    isPySpace c = false := by
  simp only [isPySpace, Bool.or_eq_false_iff, decide_eq_false_iff_not]
  refine ⟨⟨⟨⟨⟨?_, ?_⟩, ?_⟩, ?_⟩, ?_⟩, ?_⟩ <;> rintro rfl <;> simp [Char.isDigit] at h

lemma takeWhile_eq_self {p : Char → Bool} {l : List Char} (h : ∀ c ∈ l, p c = true) :
    l.takeWhile p = l := by
  induction l with
  | nil => rfl
  | cons a t ih =>
    rw [List.takeWhile_cons, if_pos (h a (by simp))]
    rw [ih (fun c hc => h c (by simp [hc]))]

lemma seqPart_spec {r s : List Char} (h : seqPart r = some s) :
    4 ≤ s.length ∧ s.length ≤ 7 ∧ ∀ c ∈ s, c.isDigit = true := by
  unfold seqPart at h
  by_cases h4 : 4 ≤ ((r.takeWhile (fun c => c.isDigit)).take 7).length
  · rw [if_pos h4] at h
    cases h
    refine ⟨h4, ?_, ?_⟩
    · exact le_trans (List.length_take_le _ _) (by norm_num)
    · intro c hc
      exact List.mem_takeWhile_imp (List.mem_of_mem_take hc)
  · rw [if_neg h4] at h
    exact absurd h (by simp)

lemma optSep_exists {α : Type} {k : List Char → Option α} {r : List Char} {a : α}
    (h : optSep k r = some a) : ∃ r', k r' = some a := by
  cases r with
  | nil => exact ⟨[], h⟩
  | cons c t =>
    simp only [optSep] at h
    split at h
    · rcases ht : k t with _ | v
      · rw [ht] at h
        dsimp only at h
        exact ⟨c :: t, h⟩
      · rw [ht] at h
        dsimp only at h
        exact ⟨t, by rw [ht]; exact h⟩
    · exact ⟨c :: t, h⟩

lemma exact4_spec {r : List Char} {y rest : List Char}
    (h : exact4 r = some (y, rest)) :
    y.length = 4 ∧ (∀ c ∈ y, c.isDigit = true) ∧ r = y ++ rest := by
  unfold exact4 at h
  split at h
  · rename_i a b c d t
    split at h
    · rename_i hd
      simp only [Bool.and_eq_true] at hd
      cases h
      refine ⟨rfl, ?_, rfl⟩
      intro x hx
      simp only [List.mem_cons, List.not_mem_nil, or_false] at hx
      rcases hx with rfl | rfl | rfl | rfl
      · exact hd.1.1.1
      · exact hd.1.1.2
      · exact hd.1.2
      · exact hd.2
    · exact absurd h (by simp)
  · exact absurd h (by simp)

lemma matchCveAt_spec {l : List Char} {y s : List Char}
    (h : matchCveAt l = some (y, s)) :
    (y.length = 4 ∧ ∀ c ∈ y, c.isDigit = true) ∧
      (4 ≤ s.length ∧ s.length ≤ 7 ∧ ∀ c ∈ s, c.isDigit = true) := by
  unfold matchCveAt at h
  split at h
  · split at h
    · obtain ⟨r', hk⟩ := optSep_exists h
      unfold yearSeq at hk
      rcases h4 : exact4 r' with _ | ⟨y', r1⟩
      · rw [h4] at hk; exact absurd hk (by simp)
      · rw [h4] at hk
        dsimp only at hk
        rcases hs : optSep seqPart r1 with _ | s'
        · rw [hs] at hk; exact absurd hk (by simp)
        · rw [hs] at hk
          simp only [Option.some.injEq, Prod.mk.injEq] at hk
          obtain ⟨rfl, rfl⟩ := hk
          obtain ⟨r'', hsq⟩ := optSep_exists hs
          exact ⟨⟨(exact4_spec h4).1, (exact4_spec h4).2.1⟩, seqPart_spec hsq⟩
    · exact absurd h (by simp)
  · exact absurd h (by simp)

lemma searchCve_spec {l : List Char} {y s : List Char}
    (h : searchCve l = some (y, s)) :
    (y.length = 4 ∧ ∀ c ∈ y, c.isDigit = true) ∧
      (4 ≤ s.length ∧ s.length ≤ 7 ∧ ∀ c ∈ s, c.isDigit = true) := by
  induction l with
  | nil => exact absurd h (by simp [searchCve])
  | cons c t ih =>
    unfold searchCve at h
    rcases hm : matchCveAt (c :: t) with _ | p
    · rw [hm] at h
      exact ih h
    · rw [hm] at h
      cases h
      exact matchCveAt_spec hm

end CveUtils

namespace CveUtils

lemma list_length_four {y : List Char} (hy : y.length = 4) :
    ∃ a b c d, y = [a, b, c, d] := by
  rcases y with _ | ⟨a, y⟩; · simp at hy
  rcases y with _ | ⟨b, y⟩; · simp at hy
  rcases y with _ | ⟨c, y⟩; · simp at hy
  rcases y with _ | ⟨d, y⟩; · simp at hy
  rcases y with _ | ⟨e, y⟩
  · exact ⟨a, b, c, d, rfl⟩
  · simp at hy

lemma exact4_cons {a b c d : Char} (rest : List Char)
    (ha : a.isDigit = true) (hb : b.isDigit = true)
    (hc : c.isDigit = true) (hd : d.isDigit = true) :
    exact4 (a :: b :: c :: d :: rest) = some ([a, b, c, d], rest) := by
  unfold exact4
  dsimp only
  rw [if_pos (by simp [ha, hb, hc, hd])]

lemma seqPart_self {s : List Char} (h4 : 4 ≤ s.length) (h7 : s.length ≤ 7)
    (hd : ∀ c ∈ s, c.isDigit = true) : seqPart s = some s := by
  unfold seqPart
  rw [takeWhile_eq_self hd, List.take_of_length_le h7, if_pos h4]

lemma matchCveAt_canon {y s : List Char} (hy : y.length = 4)
    (hyd : ∀ c ∈ y, c.isDigit = true) (h4 : 4 ≤ s.length) (h7 : s.length ≤ 7)
    (hsd : ∀ c ∈ s, c.isDigit = true) :
    matchCveAt ('C' :: 'V' :: 'E' :: '-' :: (y ++ '-' :: s)) = some (y, s) := by
  obtain ⟨a, b, c, d, rfl⟩ := list_length_four hy
  have ha := hyd a (by simp)
  have hb := hyd b (by simp)
  have hc := hyd c (by simp)
  have hdd := hyd d (by simp)
  unfold matchCveAt
  dsimp only
  rw [if_pos (by decide)]
  show optSep yearSeq ('-' :: ([a, b, c, d] ++ '-' :: s)) = _
  simp only [optSep]
  rw [if_pos (show isSep '-' = true by decide)]
  have hys : yearSeq ([a, b, c, d] ++ '-' :: s) = some ([a, b, c, d], s) := by
    unfold yearSeq
    rw [show [a, b, c, d] ++ '-' :: s = a :: b :: c :: d :: ('-' :: s) by simp]
    rw [exact4_cons ('-' :: s) ha hb hc hdd]
    dsimp only
    have : optSep seqPart ('-' :: s) = some s := by
      simp only [optSep]
      rw [if_pos (show isSep '-' = true by decide), seqPart_self h4 h7 hsd]
    rw [this]
  rw [hys]

lemma searchCve_canon {y s : List Char} (hy : y.length = 4)
    (hyd : ∀ c ∈ y, c.isDigit = true) (h4 : 4 ≤ s.length) (h7 : s.length ≤ 7)
    (hsd : ∀ c ∈ s, c.isDigit = true) :
    searchCve ('C' :: 'V' :: 'E' :: '-' :: (y ++ '-' :: s)) = some (y, s) := by
  unfold searchCve
  rw [matchCveAt_canon hy hyd h4 h7 hsd]

lemma pyStrip_eq_self {v : String} {mid s : List Char}
    (hdata : v.data = 'C' :: (mid ++ '-' :: s)) (hne : s ≠ [])
    (hsd : ∀ c ∈ s, c.isDigit = true) : pyStrip v = v := by
  obtain rfl | ⟨t, c0, rfl⟩ := s.eq_nil_or_concat
  · exact absurd rfl hne
  · rw [List.concat_eq_append] at hdata hsd
    have hc0 : isPySpace c0 = false :=
      isPySpace_eq_false_of_isDigit (hsd c0 (by simp))
    unfold pyStrip
    rw [hdata]
    rw [List.dropWhile_cons, if_neg (by decide)]
    have hrev : ('C' :: (mid ++ '-' :: (t ++ [c0]))).reverse
        = c0 :: ('C' :: (mid ++ '-' :: t)).reverse := by
      rw [show 'C' :: (mid ++ '-' :: (t ++ [c0])) = ('C' :: (mid ++ '-' :: t)) ++ [c0] by simp]
      rw [List.reverse_append]
      rfl
    rw [hrev, List.dropWhile_cons, if_neg (by rw [hc0]; simp)]
    rw [← hrev, List.reverse_reverse, ← hdata]

/-- C9: `normalize_cve` is idempotent on every input, including `None`
(`none`), the empty string, and malformed strings. -/
theorem normalize_cve_idempotent (x : Option String) :
    normalize_cve (normalize_cve x) = normalize_cve x := by
  cases x with
  | none => rfl
  | some v =>
    rcases hres : normalize_cve (some v) with _ | out
    · rfl
    · unfold normalize_cve at hres
      dsimp only at hres
      by_cases hv : v = ""
      · rw [if_pos hv] at hres; exact absurd hres (by simp)
      · rw [if_neg hv] at hres
        rcases hsearch : searchCve (pyStrip v).data with _ | ⟨y, s⟩
        · rw [hsearch] at hres; exact absurd hres (by simp)
        · rw [hsearch] at hres
          dsimp only at hres
          obtain ⟨⟨hy4, hyd⟩, hs4, hs7, hsd⟩ := searchCve_spec hsearch
          simp only [Option.some.injEq] at hres
          have hz : zfill 4 (String.mk s) = String.mk s := by
            unfold zfill
            rw [if_pos (by simpa [String.length] using hs4)]
          rw [hz] at hres
          have hdata : out.data = 'C' :: ((['V', 'E', '-'] ++ y) ++ '-' :: s) := by
            rw [← hres]
            simp [String.data_append]
          have hout : normalize_cve (some out) = some out := by
            unfold normalize_cve
            dsimp only
            have hne : out ≠ "" := by
              intro h0
              rw [h0] at hdata
              exact absurd hdata (by simp [String.data])
            rw [if_neg hne]
            rw [pyStrip_eq_self hdata (by intro h0; rw [h0] at hs4; simp at hs4) hsd]
            have : out.data = 'C' :: 'V' :: 'E' :: '-' :: (y ++ '-' :: s) := by
              rw [hdata]; simp
            rw [this, searchCve_canon hy4 hyd hs4 hs7 hsd]
            dsimp only
            rw [hz, hres]
          exact hout

/-- C8 (counterexample): the claim asserts
`normalize_cve "CVE-2021-1" = "CVE-2021-0001"`, but the embedded regex
requires a 4-to-7-digit sequence part, so the input does not match at
all and the result is `none` rather than `some "CVE-2021-0001"`. -/
theorem normalize_cve_short_seq_counterexample :
    normalize_cve (some "CVE-2021-1") = none ∧
      normalize_cve (some "CVE-2021-1") ≠ some "CVE-2021-0001" := by
  constructor
  · decide
  · decide

/-- C8 (amended): `"cve_2021_0001"` normalizes to `"CVE-2021-0001"`
regardless of separator and case, and the already-canonical form is
fixed; but `"CVE-2021-1"` yields `none`, because the sequence part must
already have at least four digits — the left-padding (`zfill 4`) never
widens a shorter sequence. -/
theorem normalize_cve_examples :
    normalize_cve (some "cve_2021_0001") = some "CVE-2021-0001" ∧
      normalize_cve (some "CVE-2021-0001") = some "CVE-2021-0001" ∧
      normalize_cve (some "CVE-2021-1") = none := by
  refine ⟨by decide, by decide, by decide⟩

end CveUtils

namespace DynamoHelpers

/-- Outcome of one `paginator.paginate` attempt inside `scan_segment` in
`final_db/utils/dynamo_helpers.py`: the page stream either runs to
completion, or raises a throttling `ClientError`
(`ProvisionedThroughputExceededException` / `ThrottlingException`), or
raises some other error. -/
inductive Outcome where
  | success
  | throttled
  | otherError
deriving DecidableEq

/-- One scripted paginate attempt: the pages the store delivered before
the attempt's outcome fired.  On `success` the list is the complete
segment; on an error it is the prefix delivered before the exception. -/
structure Attempt (Item : Type) where
  pages : List (List Item)
  outcome : Outcome

/-- The retry loop body of `scan_segment`: `items` accumulates across
attempts (`items.extend(page...)` happens inside the `try`, and `items`
is never reset on retry); each fresh attempt restarts pagination from
the beginning of the segment.  `retries > max_retries`, other errors,
and success all break out of the loop, returning whatever accumulated. -/
def scanSegmentGo (maxRetries : Nat) : List (Attempt Item) → Nat → List Item → List Item
  | [], _, items => items
  | a :: rest, retries, items =>
    let items' := items ++ a.pages.flatten
    match a.outcome with
    | .success => items'
    | .otherError => items'
    | .throttled =>
      if maxRetries < retries + 1 then items'
      else scanSegmentGo maxRetries rest (retries + 1) items'

/-- `scan_segment(seg)` run against a script of paginate attempts. -/
def scan_segment (script : List (Attempt Item)) (maxRetries : Nat) : List Item :=
  scanSegmentGo maxRetries script 0 []

/-- `parallel_scan`: all segments' results are merged by list
concatenation (the `as_completed` completion order only permutes the
segment blocks, which is irrelevant to item multiplicity). -/
def parallel_scan (scripts : List (List (Attempt Item))) (maxRetries : Nat) : List Item :=
  (scripts.map (fun s => scan_segment s maxRetries)).flatten

/-- C1 (code bug witness): a single-segment scan whose worker is
throttled after receiving the page `["A"]`, then succeeds on the first
retry (well within `max_retries = 3`) with the full segment
`["A"], ["B"]`.  Every worker eventually succeeded within the retry
bound, yet the merged result delivers `"A"` twice: the retry restarts
pagination from the beginning without clearing the `items` accumulator,
so items accumulated before the throttle are re-delivered. -/
theorem parallel_scan_retry_duplicates :
    parallel_scan [[⟨[["A"]], .throttled⟩, ⟨[["A"], ["B"]], .success⟩]] 3
        = ["A", "A", "B"] ∧
      (parallel_scan [[⟨[["A"]], .throttled⟩, ⟨[["A"], ["B"]], .success⟩]] 3).count "A"
        = 2 := by
  constructor
  · rfl
  · rfl

end DynamoHelpers

namespace FinalDb

open CveUtils

/-- A source record: a Python dict with string attribute values
(attribute values relevant to the join are strings; keys are unique). -/
abbrev Rec := List (String × String)

/-- `rec.get(k)`: first entry with the key, if any. -/
def recGet (r : Rec) (k : String) : Option String :=
  (r.find? (fun kv => kv.1 = k)).map (fun kv => kv.2)

/-- Python `x or y` on optional strings: `x` unless it is falsy
(`None` or the empty string). -/
def pyOr (a b : Option String) : Option String :=
  match a with
  | some s => if s = "" then b else some s
  | none => b

/-- The join-key candidate chain in `process`:
`rec.get("cve_id") or rec.get(source_join_key) or rec.get("CVE") or
rec.get("cveID") or rec.get("CVE_ID")`. -/
def rawCve (joinKey : String) (r : Rec) : Option String :=
  pyOr (recGet r "cve_id")
    (pyOr (recGet r joinKey)
      (pyOr (recGet r "CVE")
        (pyOr (recGet r "cveID") (recGet r "CVE_ID"))))

/-- The update field list built by `process`: `uploaded_date` is popped
from the transform output, then the loop skips `cve_id`; what remains
is the `#attr_k = :val_k` assignment list of the `SET` expression
(records are dicts, so each key occurs once). -/
def buildJoinUpdate (transformed : List (String × String)) : List (String × String) :=
  (transformed.filter (fun kv => kv.1 ≠ "uploaded_date")).filter
    (fun kv => kv.1 ≠ "cve_id")

/-- A final-table entity: attribute name → value. -/
abbrev Entity := String → Option String

/-- DynamoDB `SET` semantics on one item: each assignment writes its
attribute, later assignments win. -/
def dynamoSet (e : Entity) (sets : List (String × String)) : Entity :=
  sets.foldl (fun acc kv => fun k => if k = kv.1 then some kv.2 else acc k) e

/-- The final table: primary key (`cve_id`) → item. -/
abbrev Table := String → Option Entity

/-- `final_table.update_item(Key=.., UpdateExpression="SET ..")`:
upsert — if no item with the key exists, DynamoDB creates one holding
just the assigned attributes. -/
def updateItem (tbl : Table) (key : String) (sets : List (String × String)) : Table :=
  fun k =>
    if k = key then some (dynamoSet ((tbl key).getD (fun _ => none)) sets) else tbl k

/-- `process(rec)` from `left_join_source_from_cveindex`, acting on the
final table.  `cveSet` is the set loaded from the CVE index table
(which may contain `none`, since the set comprehension applies
`normalize_cve` to index rows and keeps failures).  `transform` models
`transform_fn` (an empty output is falsy and skipped); `fails rec`
models `final_table.update_item` raising for that record (the exception
is caught, logged, and leaves the table unchanged). -/
def process (cveSet : List (Option String)) (joinKey : String)
    (transform : Rec → List (String × String)) (fails : Rec → Bool)
    (tbl : Table) (r : Rec) : Table :=
  match normalize_cve (rawCve joinKey r) with
  | none => tbl
  | some c =>
    if some c ∈ cveSet then
      let t := transform r
      if t.isEmpty then tbl
      else
        let u := buildJoinUpdate t
        if u.isEmpty then tbl
        else if fails r then tbl
        else updateItem tbl c u
    else tbl

/-- `get_last_sync` reads `{source_table: name}` from the metadata
table; a missing item or missing attribute yields the epoch sentinel,
and a `ClientError` is swallowed and yields the same sentinel. -/
inductive StoreRead where
  | ok (lastSyncTime : Option String)
  | clientError
deriving DecidableEq

/-- `get_last_sync` from `final_db/utils/dynamo_helpers.py`. -/
def get_last_sync : StoreRead → String
  | .ok (some t) => t
  | .ok none => "1970-01-01T00:00:00Z"
  | .clientError => "1970-01-01T00:00:00Z"

/-- Python string `<`: lexicographic comparison of code points,
modelled on the character lists (Lean's built-in `String.lt` has the
same meaning but does not reduce in the kernel). -/
def pyStrLt (a b : String) : Bool := decide (a.data < b.data)

/-- Python `max(iterable, default=None)` over strings. -/
def pyMax : List String → Option String
  | [] => none
  | x :: xs => some (xs.foldl (fun acc s => if pyStrLt acc s then s else acc) x)

/-- The incremental-scan filter `Attr("uploaded_date").gt(last_sync)`:
items lacking the attribute never satisfy a comparison filter. -/
def dynFilter (lastSync : String) (r : Rec) : Bool :=
  match recGet r "uploaded_date" with
  | some d => pyStrLt lastSync d
  | none => false

/-- `left_join_source_from_cveindex` (steps 2-4): scan the source
(filtered for dynamic sources), early-return on zero items, run
`process` over every item, and for dynamic sources store
`max(rec.get("uploaded_date", "") for rec in items)` as the new
watermark when it is truthy.  Returns the final table and the
argument passed to `set_last_sync_fn` (`none` when it is not called). -/
def left_join_source_from_cveindex (isStatic : Bool) (lastSync : String)
    (source : List Rec) (cveSet : List (Option String)) (joinKey : String)
    (transform : Rec → List (String × String)) (fails : Rec → Bool)
    (tbl : Table) : Table × Option String :=
  let items := if isStatic then source else source.filter (dynFilter lastSync)
  if items.isEmpty then (tbl, none)
  else
    let tbl' := items.foldl (process cveSet joinKey transform fails) tbl
    if isStatic then (tbl', none)
    else
      match pyMax (items.map (fun r => (recGet r "uploaded_date").getD "")) with
      | none => (tbl', none)
      | some m => if m = "" then (tbl', none) else (tbl', some m)

end FinalDb

namespace FinalDb

open CveUtils

/-- Attribute of an optional item: absent items have no attributes. -/
def attrAt (oe : Option Entity) (a : String) : Option String :=
  match oe with
  | some e => e a
  | none => none

/-- The net effect of a `SET` assignment list on one attribute:
the last assigned value, if the attribute is assigned at all. -/
def assign : List (String × String) → String → Option String
  | [], _ => none
  | kv :: u, k =>
    match assign u k with
    | some v => some v
    | none => if kv.1 = k then some kv.2 else none

lemma dynamoSet_apply (e : Entity) (u : List (String × String)) (k : String) :
    dynamoSet e u k = match assign u k with | some v => some v | none => e k := by
  induction u generalizing e with
  | nil => rfl
  | cons kv u ih =>
    show dynamoSet (fun k => if k = kv.1 then some kv.2 else e k) u k = _
    rw [ih]
    rcases h : assign u k with _ | v
    · dsimp only
      show (if k = kv.1 then some kv.2 else e k) = _
      show _ = (match (match assign u k with
          | some v => some v
          | none => if kv.1 = k then some kv.2 else none) with
        | some v => some v | none => e k)
      rw [h]
      by_cases hk : kv.1 = k
      · rw [if_pos hk, if_pos hk.symm]
      · rw [if_neg hk, if_neg (fun h' => hk h'.symm)]
    · show _ = (match (match assign u k with
          | some v => some v
          | none => if kv.1 = k then some kv.2 else none) with
        | some v => some v | none => e k)
      rw [h]

lemma assign_eq_none_iff {u : List (String × String)} {k : String} :
    assign u k = none ↔ k ∉ u.map Prod.fst := by
  induction u with
  | nil => simp [assign]
  | cons kv u ih =>
    show (match assign u k with
      | some v => some v
      | none => if kv.1 = k then some kv.2 else none) = none ↔ _
    rcases h : assign u k with _ | v
    · dsimp only
      by_cases hk : kv.1 = k
      · rw [if_pos hk]
        simp [hk]
      · rw [if_neg hk]
        simp only [List.map_cons, List.mem_cons]
        constructor
        · intro _
          rintro (h' | hm)
          · exact hk h'.symm
          · exact (ih.mp h) hm
        · intro _
          trivial
    · simp only [List.map_cons, List.mem_cons]
      constructor
      · intro h'; exact absurd h' (by simp)
      · intro h'
        exact absurd (ih.mpr (fun hm => h' (Or.inr hm))) (by simp [h])

lemma buildJoinUpdate_no_uploaded (t : List (String × String)) :
    "uploaded_date" ∉ (buildJoinUpdate t).map Prod.fst := by
  intro hmem
  obtain ⟨kv, hkv, hfst⟩ := List.mem_map.mp hmem
  have h1 := List.mem_filter.mp hkv
  have h2 := List.mem_filter.mp h1.1
  rw [hfst] at h2
  simp at h2

/-- C10: the join executor never writes `uploaded_date`: the field is
popped from the transform output before the update expression is
built, so no assignment in the `SET` list targets it, and `process`
leaves every item's `uploaded_date` attribute exactly as it was. -/
theorem process_preserves_uploaded_date
    (cveSet : List (Option String)) (joinKey : String)
    (transform : Rec → List (String × String)) (fails : Rec → Bool)
    (tbl : Table) (r : Rec) (k : String) (t : List (String × String)) :
    "uploaded_date" ∉ (buildJoinUpdate t).map Prod.fst ∧
      attrAt ((process cveSet joinKey transform fails tbl r) k) "uploaded_date"
        = attrAt (tbl k) "uploaded_date" := by
  refine ⟨buildJoinUpdate_no_uploaded t, ?_⟩
  unfold process
  rcases hn : normalize_cve (rawCve joinKey r) with _ | c
  · rfl
  · dsimp only
    by_cases hc : some c ∈ cveSet
    swap
    · rw [if_neg hc]
    · rw [if_pos hc]
      by_cases ht : (transform r).isEmpty
      · rw [if_pos ht]
      · rw [if_neg ht]
        by_cases hu : (buildJoinUpdate (transform r)).isEmpty
        · rw [if_pos hu]
        · rw [if_neg hu]
          by_cases hf : fails r
          · rw [if_pos hf]
          · rw [if_neg hf]
            unfold updateItem
            by_cases hk : k = c
            · rw [if_pos hk]
              show (dynamoSet _ _) "uploaded_date" = _
              rw [dynamoSet_apply]
              rw [assign_eq_none_iff.mpr (buildJoinUpdate_no_uploaded (transform r))]
              subst hk
              rcases htk : tbl k with _ | e
              · rfl
              · rfl
            · rw [if_neg hk]

end FinalDb

namespace FinalDb

open CveUtils

lemma assign_isSome_iff {u : List (String × String)} {k : String} :
    (assign u k).isSome = true ↔ k ∈ u.map Prod.fst := by
  rcases h : assign u k with _ | v
  · simp only [Option.isSome_none]
    constructor
    · intro h'; exact absurd h' (by simp)
    · intro h'; exact absurd h' (assign_eq_none_iff.mp h)
  · simp only [Option.isSome_some, true_iff]
    by_contra hm
    rw [assign_eq_none_iff.mpr hm] at h
    exact absurd h (by simp)

lemma dynamoSet_comm {e : Entity} {u1 u2 : List (String × String)}
    (hdisj : ∀ k ∈ u1.map Prod.fst, k ∉ u2.map Prod.fst) :
    dynamoSet (dynamoSet e u1) u2 = dynamoSet (dynamoSet e u2) u1 := by
  funext k
  rw [dynamoSet_apply, dynamoSet_apply, dynamoSet_apply, dynamoSet_apply]
  rcases h1 : assign u1 k with _ | v1 <;> rcases h2 : assign u2 k with _ | v2
  · rfl
  · rfl
  · rfl
  · exact absurd (assign_isSome_iff.mp (by simp [h2]))
      (hdisj k (assign_isSome_iff.mp (by simp [h1])))

lemma updateItem_comm {tbl : Table} {c : String} {u1 u2 : List (String × String)}
    (hdisj : ∀ k ∈ u1.map Prod.fst, k ∉ u2.map Prod.fst) :
    updateItem (updateItem tbl c u1) c u2 = updateItem (updateItem tbl c u2) c u1 := by
  funext k
  unfold updateItem
  by_cases hk : k = c
  · subst hk
    simp only [if_pos rfl, if_true, Option.getD_some]
    rw [dynamoSet_comm hdisj]
  · simp only [if_neg hk]

lemma updateItem_attr_present {tbl : Table} {c : String}
    {u1 u2 : List (String × String)} {a : String}
    (ha : a ∈ u1.map Prod.fst ∨ a ∈ u2.map Prod.fst) :
    attrAt ((updateItem (updateItem tbl c u1) c u2) c) a ≠ none := by
  unfold updateItem attrAt
  simp only [if_pos rfl, if_true, Option.getD_some]
  rw [dynamoSet_apply]
  rcases ha2 : assign u2 a with _ | v2
  · dsimp only
    rw [dynamoSet_apply]
    rcases ha1 : assign u1 a with _ | v1
    · rcases ha with ha | ha
      · exact absurd (assign_eq_none_iff.mp ha1) (by simp [ha])
      · exact absurd (assign_eq_none_iff.mp ha2) (by simp [ha])
    · simp
  · simp

lemma process_eq_updateItem {cveSet : List (Option String)} {joinKey : String}
    {transform : Rec → List (String × String)} {fails : Rec → Bool}
    {tbl : Table} {r : Rec} {c : String}
    (h1 : normalize_cve (rawCve joinKey r) = some c)
    (hc : some c ∈ cveSet)
    (hu : buildJoinUpdate (transform r) ≠ [])
    (hf : fails r = false) :
    process cveSet joinKey transform fails tbl r
      = updateItem tbl c (buildJoinUpdate (transform r)) := by
  have ht : (transform r).isEmpty = false := by
    rcases htr : transform r with _ | _
    · exact absurd (by rw [htr]; rfl) hu
    · rfl
  have hbu : (buildJoinUpdate (transform r)).isEmpty = false := by
    rcases h : buildJoinUpdate (transform r) with _ | _
    · exact absurd h hu
    · rfl
  unfold process
  rw [h1]
  dsimp only
  rw [if_pos hc]
  simp only [ht, hbu, hf, Bool.false_eq_true, if_false]

/-- C2: two sources' join updates against the same base entity commute
and accumulate: when both records resolve to the same entity key `c`,
that key is in the CVE index set, both update expressions are nonempty
and both store writes succeed, applying source 1's `process` and then
source 2's yields the same final table as the opposite order whenever
their (source-prefixed) update field sets are disjoint; and the
resulting entity carries every field of both updates. -/
theorem join_updates_commute (cveSet : List (Option String)) (jk1 jk2 : String)
    (t1 t2 : Rec → List (String × String)) (f1 f2 : Rec → Bool)
    (tbl : Table) (r1 r2 : Rec) (c : String)
    (h1 : normalize_cve (rawCve jk1 r1) = some c)
    (h2 : normalize_cve (rawCve jk2 r2) = some c)
    (hc : some c ∈ cveSet)
    (hu1 : buildJoinUpdate (t1 r1) ≠ [])
    (hu2 : buildJoinUpdate (t2 r2) ≠ [])
    (hf1 : f1 r1 = false) (hf2 : f2 r2 = false)
    (hdisj : ∀ k ∈ (buildJoinUpdate (t1 r1)).map Prod.fst,
      k ∉ (buildJoinUpdate (t2 r2)).map Prod.fst) :
    process cveSet jk2 t2 f2 (process cveSet jk1 t1 f1 tbl r1) r2
        = process cveSet jk1 t1 f1 (process cveSet jk2 t2 f2 tbl r2) r1 ∧
      ∀ a, (a ∈ (buildJoinUpdate (t1 r1)).map Prod.fst ∨
            a ∈ (buildJoinUpdate (t2 r2)).map Prod.fst) →
        attrAt ((process cveSet jk2 t2 f2 (process cveSet jk1 t1 f1 tbl r1) r2) c) a
          ≠ none := by
  rw [process_eq_updateItem h1 hc hu1 hf1, process_eq_updateItem h2 hc hu2 hf2,
    process_eq_updateItem h1 hc hu1 hf1, process_eq_updateItem h2 hc hu2 hf2]
  exact ⟨updateItem_comm hdisj, fun a ha => updateItem_attr_present ha⟩

/-- Witness for C2: two concrete source records for the entity
`CVE-2020-0001`, one writing the `epss_*` namespace and one writing the
`cisa_*` namespace; both orders of applying the joins agree and the
entity ends up carrying both field groups. -/
theorem join_updates_commute_witness :
    (normalize_cve (rawCve "cve" [("cve_id", "CVE-2020-0001"), ("epss_score", "0.5")])
        = some "CVE-2020-0001") ∧
      (process [some "CVE-2020-0001"] "cve"
          (fun _ => [("cisa_kev", "yes")]) (fun _ => false)
          (process [some "CVE-2020-0001"] "cve"
            (fun _ => [("epss_score", "0.5")]) (fun _ => false)
            (fun _ => none) [("cve_id", "CVE-2020-0001"), ("epss_score", "0.5")])
          [("cve_id", "CVE-2020-0001"), ("cisa_kev", "yes")]
        = process [some "CVE-2020-0001"] "cve"
            (fun _ => [("epss_score", "0.5")]) (fun _ => false)
            (process [some "CVE-2020-0001"] "cve"
              (fun _ => [("cisa_kev", "yes")]) (fun _ => false)
              (fun _ => none) [("cve_id", "CVE-2020-0001"), ("cisa_kev", "yes")])
            [("cve_id", "CVE-2020-0001"), ("epss_score", "0.5")]) := by
  refine ⟨by decide, ?_⟩
  exact (join_updates_commute [some "CVE-2020-0001"] "cve" "cve"
    (fun _ => [("epss_score", "0.5")]) (fun _ => [("cisa_kev", "yes")])
    (fun _ => false) (fun _ => false) (fun _ => none)
    [("cve_id", "CVE-2020-0001"), ("epss_score", "0.5")]
    [("cve_id", "CVE-2020-0001"), ("cisa_kev", "yes")]
    "CVE-2020-0001" (by decide) (by decide) (by decide)
    (by decide) (by decide) rfl rfl (by decide)).1

end FinalDb

namespace FinalDb

open CveUtils

lemma process_mono_nonnone {cveSet : List (Option String)} {joinKey : String}
    {transform : Rec → List (String × String)} {fails : Rec → Bool}
    {tbl : Table} {r : Rec} {k : String} (h : tbl k ≠ none) :
    (process cveSet joinKey transform fails tbl r) k ≠ none := by
  unfold process
  rcases hn : normalize_cve (rawCve joinKey r) with _ | c
  · exact h
  · dsimp only
    by_cases hc : some c ∈ cveSet
    swap
    · rw [if_neg hc]; exact h
    · rw [if_pos hc]
      by_cases ht : (transform r).isEmpty
      · rw [if_pos ht]; exact h
      · rw [if_neg ht]
        by_cases hu : (buildJoinUpdate (transform r)).isEmpty
        · rw [if_pos hu]; exact h
        · rw [if_neg hu]
          by_cases hf : fails r
          · rw [if_pos hf]; exact h
          · rw [if_neg hf]
            unfold updateItem
            by_cases hk : k = c
            · rw [if_pos hk]; simp
            · rw [if_neg hk]; exact h

lemma process_preserves_keys {cveSet : List (Option String)} {joinKey : String}
    {transform : Rec → List (String × String)} {fails : Rec → Bool}
    {tbl : Table} {r : Rec}
    (hsub : ∀ c, some c ∈ cveSet → tbl c ≠ none) {k : String}
    (h : (process cveSet joinKey transform fails tbl r) k ≠ none) : tbl k ≠ none := by
  revert h
  unfold process
  rcases hn : normalize_cve (rawCve joinKey r) with _ | c
  · exact id
  · dsimp only
    by_cases hc : some c ∈ cveSet
    swap
    · rw [if_neg hc]; exact id
    · rw [if_pos hc]
      by_cases ht : (transform r).isEmpty
      · rw [if_pos ht]; exact id
      · rw [if_neg ht]
        by_cases hu : (buildJoinUpdate (transform r)).isEmpty
        · rw [if_pos hu]; exact id
        · rw [if_neg hu]
          by_cases hf : fails r
          · rw [if_pos hf]; exact id
          · rw [if_neg hf]
            unfold updateItem
            by_cases hk : k = c
            · rw [if_pos hk]
              intro _
              rw [hk]
              exact hsub c hc
            · rw [if_neg hk]; exact id

lemma foldl_process_preserves_keys {cveSet : List (Option String)} {joinKey : String}
    {transform : Rec → List (String × String)} {fails : Rec → Bool}
    (items : List Rec) :
    ∀ tbl : Table, (∀ c, some c ∈ cveSet → tbl c ≠ none) →
      ∀ k, (items.foldl (process cveSet joinKey transform fails) tbl) k ≠ none →
        tbl k ≠ none := by
  induction items with
  | nil => exact fun tbl _ k h => h
  | cons r items ih =>
    intro tbl hsub k h
    exact process_preserves_keys hsub
      (ih (process cveSet joinKey transform fails tbl r)
        (fun c hc => process_mono_nonnone (hsub c hc)) k h)

lemma process_skips {cveSet : List (Option String)} {joinKey : String}
    {transform : Rec → List (String × String)} {fails : Rec → Bool}
    (t : Table) (r : Rec)
    (h : normalize_cve (rawCve joinKey r) = none ∨
      ∀ c, normalize_cve (rawCve joinKey r) = some c → some c ∉ cveSet) :
    process cveSet joinKey transform fails t r = t := by
  unfold process
  rcases hn : normalize_cve (rawCve joinKey r) with _ | c
  · rfl
  · dsimp only
    rcases h with h | h
    · rw [hn] at h; exact absurd h (by simp)
    · rw [if_neg (h c hn)]

lemma left_join_fst (isStatic : Bool) (lastSync : String) (source : List Rec)
    (cveSet : List (Option String)) (joinKey : String)
    (transform : Rec → List (String × String)) (fails : Rec → Bool) (tbl : Table) :
    (left_join_source_from_cveindex isStatic lastSync source cveSet joinKey
        transform fails tbl).1 = tbl ∨
      (left_join_source_from_cveindex isStatic lastSync source cveSet joinKey
          transform fails tbl).1
        = (if isStatic then source else source.filter (dynFilter lastSync)).foldl
            (process cveSet joinKey transform fails) tbl := by
  unfold left_join_source_from_cveindex
  dsimp only
  repeat' split
  all_goals first | exact Or.inl rfl | exact Or.inr rfl

/-- C3: a source join pass never creates final-table entities, provided
the CVE index only lists keys that already exist in the final table:
every record whose normalized key is not in the index set is skipped
outright (for any table state), and the key set of the final table
after the pass is contained in its key set before the pass. -/
theorem left_join_containment (isStatic : Bool) (lastSync : String)
    (source : List Rec) (cveSet : List (Option String)) (joinKey : String)
    (transform : Rec → List (String × String)) (fails : Rec → Bool) (tbl : Table)
    (hsub : ∀ c, some c ∈ cveSet → tbl c ≠ none) :
    (∀ k, (left_join_source_from_cveindex isStatic lastSync source cveSet joinKey
        transform fails tbl).1 k ≠ none → tbl k ≠ none) ∧
      ∀ (t : Table) (r : Rec),
        (normalize_cve (rawCve joinKey r) = none ∨
          ∀ c, normalize_cve (rawCve joinKey r) = some c → some c ∉ cveSet) →
        process cveSet joinKey transform fails t r = t := by
  refine ⟨?_, fun t r h => process_skips t r h⟩
  intro k
  rcases left_join_fst isStatic lastSync source cveSet joinKey transform fails tbl
    with hfst | hfst
  · rw [hfst]; exact id
  · rw [hfst]
    exact foldl_process_preserves_keys _ tbl hsub k

/-- A one-entity final table used by concrete witnesses. -/
def sampleTable : Table :=
  fun k => if k = "CVE-2020-0001" then some (fun _ => none) else none

/-- Witness for C3: a final table holding `CVE-2020-0001`, a CVE index
set listing exactly that key, and a source record with an
unrecognizable key, which the pass skips for any table state. -/
theorem left_join_containment_witness :
    (∀ c, some c ∈ [some "CVE-2020-0001"] → sampleTable c ≠ none) ∧
      process [some "CVE-2020-0001"] "cve" (fun _ => [("epss_score", "0.5")])
          (fun _ => false) sampleTable [("cve_id", "not-a-cve")]
        = sampleTable := by
  have hsub : ∀ c, some c ∈ [some "CVE-2020-0001"] → sampleTable c ≠ none := by
    intro c hc
    simp only [List.mem_singleton, Option.some.injEq] at hc
    subst hc
    simp [sampleTable]
  refine ⟨hsub, ?_⟩
  exact (left_join_containment false "1970-01-01T00:00:00Z" [] [some "CVE-2020-0001"]
    "cve" (fun _ => [("epss_score", "0.5")]) (fun _ => false) sampleTable hsub).2
    sampleTable [("cve_id", "not-a-cve")] (Or.inl (by decide))

end FinalDb

namespace FinalDb

open CveUtils

lemma pyFold_choice (x : String) (xs : List String) :
    xs.foldl (fun acc s => if pyStrLt acc s then s else acc) x = x ∨
      xs.foldl (fun acc s => if pyStrLt acc s then s else acc) x ∈ xs := by
  induction xs generalizing x with
  | nil => exact Or.inl rfl
  | cons y ys ih =>
    rcases ih (if pyStrLt x y then y else x) with h | h
    · by_cases hxy : pyStrLt x y
      · right
        rw [List.foldl_cons, h, if_pos hxy]
        simp
      · left
        rw [List.foldl_cons, h, if_neg hxy]
    · right
      rw [List.foldl_cons]
      exact List.mem_cons_of_mem _ h

lemma pyFold_ub (x : String) (xs : List String) :
    x.data ≤ (xs.foldl (fun acc s => if pyStrLt acc s then s else acc) x).data ∧
      ∀ d ∈ xs, d.data ≤ (xs.foldl (fun acc s => if pyStrLt acc s then s else acc) x).data := by
  induction xs generalizing x with
  | nil => exact ⟨le_refl _, by simp⟩
  | cons y ys ih =>
    obtain ⟨ih1, ih2⟩ := ih (if pyStrLt x y then y else x)
    have hx : x.data ≤ (if pyStrLt x y then y else x).data := by
      by_cases hxy : pyStrLt x y
      · rw [if_pos hxy]
        exact le_of_lt (of_decide_eq_true hxy)
      · rw [if_neg hxy]
    have hy : y.data ≤ (if pyStrLt x y then y else x).data := by
      by_cases hxy : pyStrLt x y
      · rw [if_pos hxy]
      · rw [if_neg hxy]
        exact le_of_not_lt (fun hl => hxy (decide_eq_true hl))
    rw [List.foldl_cons]
    refine ⟨le_trans hx ih1, ?_⟩
    intro d hd
    rcases List.mem_cons.mp hd with rfl | hd
    · exact le_trans hy ih1
    · exact ih2 d hd

lemma pyMax_spec {l : List String} (h : l ≠ []) :
    ∃ m, pyMax l = some m ∧ m ∈ l ∧ ∀ d ∈ l, d.data ≤ m.data := by
  rcases l with _ | ⟨x, xs⟩
  · exact absurd rfl h
  · refine ⟨xs.foldl (fun acc s => if pyStrLt acc s then s else acc) x, rfl, ?_, ?_⟩
    · rcases pyFold_choice x xs with h' | h'
      · rw [h']; simp
      · simp [h']
    · intro d hd
      obtain ⟨h1, h2⟩ := pyFold_ub x xs
      rcases List.mem_cons.mp hd with rfl | hd
      · exact h1
      · exact h2 d hd

lemma left_join_snd_dynamic {lastSync : String} {source : List Rec}
    {cveSet : List (Option String)} {joinKey : String}
    {transform : Rec → List (String × String)} {fails : Rec → Bool} {tbl : Table}
    {m : String}
    (hne : (source.filter (dynFilter lastSync)).isEmpty = false)
    (hm : pyMax ((source.filter (dynFilter lastSync)).map
      (fun r => (recGet r "uploaded_date").getD "")) = some m)
    (hm0 : m ≠ "") :
    (left_join_source_from_cveindex false lastSync source cveSet joinKey
      transform fails tbl).2 = some m := by
  unfold left_join_source_from_cveindex
  simp only [Bool.false_eq_true, if_false, hne]
  rw [hm]
  dsimp only
  rw [if_neg hm0]

/-- C4: for a dynamic source whose filtered incremental scan returns at
least one item, the pass hands `set_last_sync` the maximum
`uploaded_date` among the scanned items — an upper bound of all
observed markers that is itself one of them — and this is entirely
independent of which (or how many) per-record `update_item` calls
fail. -/
theorem watermark_advances_on_scan (lastSync : String) (source : List Rec)
    (cveSet : List (Option String)) (joinKey : String)
    (transform : Rec → List (String × String)) (tbl : Table)
    (h : source.filter (dynFilter lastSync) ≠ []) :
    ∃ m,
      (∀ fails, (left_join_source_from_cveindex false lastSync source cveSet joinKey
          transform fails tbl).2 = some m) ∧
      m ∈ (source.filter (dynFilter lastSync)).map
        (fun r => (recGet r "uploaded_date").getD "") ∧
      ∀ d ∈ (source.filter (dynFilter lastSync)).map
        (fun r => (recGet r "uploaded_date").getD ""), d.data ≤ m.data := by
  have hmap : (source.filter (dynFilter lastSync)).map
      (fun r => (recGet r "uploaded_date").getD "") ≠ [] := by
    intro h0
    exact h (List.map_eq_nil_iff.mp h0)
  obtain ⟨m, hm, hmem, hub⟩ := pyMax_spec hmap
  have hm0 : m ≠ "" := by
    obtain ⟨r, hr, hfr⟩ := List.mem_map.mp hmem
    have hdyn := (List.mem_filter.mp hr).2
    unfold dynFilter at hdyn
    rcases hg : recGet r "uploaded_date" with _ | d
    · rw [hg] at hdyn; exact absurd hdyn (by simp)
    · rw [hg] at hdyn
      have hlt : lastSync.data < d.data := of_decide_eq_true hdyn
      have hdm : d = m := by rw [← hfr, hg]; rfl
      subst hdm
      intro h0
      subst h0
      exact List.Lex.not_nil_right _ _
        (lt_of_le_of_lt (List.nil_le : [] ≤ lastSync.data) hlt)
  have hne : (source.filter (dynFilter lastSync)).isEmpty = false := by
    rcases h' : source.filter (dynFilter lastSync) with _ | _
    · exact absurd h' h
    · rfl
  exact ⟨m, fun fails => left_join_snd_dynamic hne hm hm0, hmem, hub⟩

/-- Witness for C4: three records with markers
`2021-01-01 < 2021-01-02 < 2021-01-03`, all later than the epoch
watermark; every `update_item` call fails, yet the stored watermark is
the maximum marker `2021-01-03`. -/
theorem watermark_advances_on_scan_witness :
    ([[("cve_id", "CVE-2020-0001"), ("uploaded_date", "2021-01-01")],
      [("cve_id", "CVE-2020-0002"), ("uploaded_date", "2021-01-03")],
      [("cve_id", "CVE-2020-0003"), ("uploaded_date", "2021-01-02")]].filter
        (dynFilter "1970-01-01T00:00:00Z") ≠ []) ∧
      (left_join_source_from_cveindex false "1970-01-01T00:00:00Z"
          [[("cve_id", "CVE-2020-0001"), ("uploaded_date", "2021-01-01")],
           [("cve_id", "CVE-2020-0002"), ("uploaded_date", "2021-01-03")],
           [("cve_id", "CVE-2020-0003"), ("uploaded_date", "2021-01-02")]]
          [some "CVE-2020-0001"] "cve_id" (fun _ => [("src_field", "v")])
          (fun _ => true) sampleTable).2 = some "2021-01-03" := by
  refine ⟨by decide, ?_⟩
  obtain ⟨m, hall, hmem, hub⟩ := watermark_advances_on_scan "1970-01-01T00:00:00Z"
    [[("cve_id", "CVE-2020-0001"), ("uploaded_date", "2021-01-01")],
     [("cve_id", "CVE-2020-0002"), ("uploaded_date", "2021-01-03")],
     [("cve_id", "CVE-2020-0003"), ("uploaded_date", "2021-01-02")]]
    [some "CVE-2020-0001"] "cve_id" (fun _ => [("src_field", "v")])
    sampleTable (by decide)
  have hlist : ([[("cve_id", "CVE-2020-0001"), ("uploaded_date", "2021-01-01")],
      [("cve_id", "CVE-2020-0002"), ("uploaded_date", "2021-01-03")],
      [("cve_id", "CVE-2020-0003"), ("uploaded_date", "2021-01-02")]].filter
        (dynFilter "1970-01-01T00:00:00Z")).map
        (fun r => (recGet r "uploaded_date").getD "")
      = ["2021-01-01", "2021-01-03", "2021-01-02"] := by decide
  rw [hlist] at hmem hub
  have h3 := hub "2021-01-03" (by decide)
  have hm3 : m = "2021-01-03" := by
    simp only [List.mem_cons, List.not_mem_nil, or_false] at hmem
    rcases hmem with rfl | rfl | rfl
    · exact absurd h3 (by decide)
    · rfl
    · exact absurd h3 (by decide)
  rw [hall (fun _ => true), hm3]

/-- C5 (counterexample): when the watermark store read fails with a
`ClientError`, `get_last_sync` swallows the exception and returns the
epoch sentinel, and the pass proceeds normally rather than failing: it
scans from epoch, joins, and even advances the watermark at the end of
the pass.  This contradicts the claim that an unreachable watermark
store fails the whole pass and prevents any advancement. -/
theorem watermark_read_error_counterexample :
    get_last_sync .clientError = "1970-01-01T00:00:00Z" ∧
      (left_join_source_from_cveindex false (get_last_sync .clientError)
          [[("cve_id", "CVE-2020-0001"), ("uploaded_date", "2021-01-01")]]
          [some "CVE-2020-0001"] "cve_id" (fun _ => [("epss_score", "0.5")])
          (fun _ => false) sampleTable).2 = some "2021-01-01" := by
  exact ⟨rfl, by decide⟩

/-- C5 (amended): a `ClientError` while reading the watermark does not
fail the pass: `get_last_sync` returns the epoch sentinel and the pass
behaves exactly as a pass whose stored watermark is the epoch (a full
incremental re-scan); the stored watermark value itself is not touched
by the failed read. -/
theorem watermark_read_error_defaults (source : List Rec)
    (cveSet : List (Option String)) (joinKey : String)
    (transform : Rec → List (String × String)) (fails : Rec → Bool) (tbl : Table) :
    get_last_sync .clientError = "1970-01-01T00:00:00Z" ∧
      left_join_source_from_cveindex false (get_last_sync .clientError) source
          cveSet joinKey transform fails tbl
        = left_join_source_from_cveindex false "1970-01-01T00:00:00Z" source
            cveSet joinKey transform fails tbl :=
  ⟨rfl, rfl⟩

end FinalDb

namespace Epss

/-- JSON-style Python values as they occur in EPSS records and
baselines.  Numbers are modelled as integers (floats are out of the
model's scope; the canonicalization and serialization logic is
type-generic).  Dicts are association lists with unique keys in
insertion order. -/
inductive PyVal where
  | str (s : String)
  | int (n : Int)
  | bool (b : Bool)
  | none
  | list (xs : List PyVal)
  | dict (entries : List (String × PyVal))

/-- `VOLATILE_FIELDS = {"date_updated"}`. -/
def volatile (k : String) : Bool := k = "date_updated"

/-- Key order used by `sorted(obj.items())`: dict keys are unique, so
the tuple comparison is decided by the (codepoint-lexicographic) key
comparison. -/
def keyLE (a b : String × PyVal) : Prop := a.1.data ≤ b.1.data

instance : DecidableRel keyLE :=
  fun a b => inferInstanceAs (Decidable (a.1.data ≤ b.1.data))

instance : IsTotal (String × PyVal) keyLE := ⟨fun a b => le_total a.1.data b.1.data⟩

instance : IsTrans (String × PyVal) keyLE := ⟨fun _ _ _ h1 h2 => le_trans h1 h2⟩

/-- `sorted(obj.items())`, modelled by a stable sort (Python's sort is
stable; all stable sorts agree, and dict keys are unique anyway). -/
def sortByKey (es : List (String × PyVal)) : List (String × PyVal) :=
  List.insertionSort keyLE es

/-- `_canonical_for_compare` from `epss_db/load.py`: sort dict items,
drop volatile keys, recurse into values; lists recurse positionally;
atoms are unchanged. -/
def canonical : PyVal → PyVal
  | .str s => .str s
  | .int n => .int n
  | .bool b => .bool b
  | .none => .none
  | .list xs => .list (xs.attach.map (fun x => canonical x.1))
  | .dict es => .dict (((sortByKey es).filter (fun kv => !volatile kv.1)).attach.map
      (fun kv => (kv.1.1, canonical kv.1.2)))
termination_by v => sizeOf v
decreasing_by
  · have h := List.sizeOf_lt_of_mem x.2
    simp only [PyVal.list.sizeOf_spec]
    omega
  · have hmem : kv.1 ∈ es :=
      (List.perm_insertionSort keyLE es).mem_iff.mp (List.mem_filter.mp kv.2).1
    have h := List.sizeOf_lt_of_mem hmem
    have h2 : sizeOf kv.1 = 1 + sizeOf kv.1.1 + sizeOf kv.1.2 := by
      rcases kv.1 with ⟨a, b⟩
      simp
    simp only [PyVal.dict.sizeOf_spec]
    omega

/-- Lowercase hexadecimal digit, as used by `json.dumps`'s `\uXXXX`
escapes. -/
def hexDigit : Nat → Char
  | 0 => '0' | 1 => '1' | 2 => '2' | 3 => '3' | 4 => '4'
  | 5 => '5' | 6 => '6' | 7 => '7' | 8 => '8' | 9 => '9'
  | 10 => 'a' | 11 => 'b' | 12 => 'c' | 13 => 'd' | 14 => 'e' | 15 => 'f'
  | _ => '0'

def hexVal (c : Char) : Nat :=
  if c.toNat ≤ 57 then c.toNat - 48 else c.toNat - 87

/-- `json.dumps` string escaping (`ensure_ascii=False`): `"` and `\`
and the five short control escapes, `\u00XX` for other control
characters, everything else verbatim. -/
def escChar (c : Char) : List Char :=
  if c = '"' then ['\\', '"']
  else if c = '\\' then ['\\', '\\']
  else if c.toNat = 8 then ['\\', 'b']
  else if c.toNat = 9 then ['\\', 't']
  else if c.toNat = 10 then ['\\', 'n']
  else if c.toNat = 12 then ['\\', 'f']
  else if c.toNat = 13 then ['\\', 'r']
  else if c.toNat < 32 then
    ['\\', 'u', '0', '0', hexDigit (c.toNat / 16), hexDigit (c.toNat % 16)]
  else [c]

def escList : List Char → List Char
  | [] => []
  | c :: r => escChar c ++ escList r

/-- A JSON string literal. -/
def jsonStr (s : String) : List Char := '"' :: (escList s.data ++ ['"'])

/-- Decimal rendering of a natural number. -/
def natDec (n : Nat) : List Char :=
  if n < 10 then [hexDigit n]
  else natDec (n / 10) ++ [hexDigit (n % 10)]
termination_by n
decreasing_by exact Nat.div_lt_self (by omega) (by omega)

/-- Decimal rendering of an integer, as `json.dumps` prints it. -/
def intDec (n : Int) : List Char :=
  if n < 0 then '-' :: natDec (-n).toNat else natDec n.toNat

/-- `",".join`-style interleaving used by
`separators=(",", ":")`. -/
def joinComma : List (List Char) → List Char
  | [] => []
  | [x] => x
  | x :: y :: xs => x ++ ',' :: joinComma (y :: xs)

/-- `json.dumps(v, sort_keys=True, separators=(",", ":"),
ensure_ascii=False)` over the character list of the output. -/
def render : PyVal → List Char
  | .str s => jsonStr s
  | .int n => intDec n
  | .bool true => ['t', 'r', 'u', 'e']
  | .bool false => ['f', 'a', 'l', 's', 'e']
  | .none => ['n', 'u', 'l', 'l']
  | .list xs => '[' :: (joinComma (xs.attach.map (fun x => render x.1)) ++ [']'])
  | .dict es => '\x7b' :: (joinComma ((sortByKey es).attach.map
      (fun kv => jsonStr kv.1.1 ++ ':' :: render kv.1.2)) ++ ['\x7d'])
termination_by v => sizeOf v
decreasing_by
  · have h := List.sizeOf_lt_of_mem x.2
    simp only [PyVal.list.sizeOf_spec]
    omega
  · have hmem : kv.1 ∈ es :=
      (List.perm_insertionSort keyLE es).mem_iff.mp kv.2
    have h := List.sizeOf_lt_of_mem hmem
    have h2 : sizeOf kv.1 = 1 + sizeOf kv.1.1 + sizeOf kv.1.2 := by
      rcases kv.1 with ⟨a, b⟩
      simp
    simp only [PyVal.dict.sizeOf_spec]
    omega

/-- `_serialize_canonical`: the canonical content serialization whose
string equality drives the baseline comparison. -/
def serialize_canonical (v : PyVal) : String := String.mk (render (canonical v))

end Epss

namespace Epss

/-- `str.upper()` (ASCII). -/
def pyUpper (s : String) : String := String.mk (s.data.map Char.toUpper)

/-- Python dict lookup. -/
def dictGet (m : List (String × PyVal)) (k : String) : Option PyVal :=
  (m.find? (fun kv => kv.1 = k)).map (fun kv => kv.2)

/-- Python dict assignment `m[k] = v`: update in place if the key
exists, append otherwise. -/
def dictUpsert (m : List (String × PyVal)) (k : String) (v : PyVal) :
    List (String × PyVal) :=
  if m.any (fun kv => kv.1 = k) then
    m.map (fun kv => if kv.1 = k then (k, v) else kv)
  else m ++ [(k, v)]

/-- The truthy `"cve"` value of a record, as used by both the baseline
loader (`item.get("cve")`) and the current-map builder
(`r.get("cve")`).  Records carry string identifiers; a non-string
truthy value would crash `.upper()` in the Python code and is outside
the model. -/
def recCve (r : PyVal) : Option String :=
  match r with
  | .dict es =>
    match dictGet es "cve" with
    | some (.str s) => if s = "" then none else some s
    | _ => none
  | _ => none

/-- One `baseline_map[key.upper()] = rec` step, shared by the initial
map comprehensions and the chunked write loop. -/
def baselineInsert (m : List (String × PyVal)) (r : PyVal) : List (String × PyVal) :=
  match recCve r with
  | some s => dictUpsert m (pyUpper s) r
  | none => m

/-- `current_map = {r["cve"].upper(): r for r in records if r.get("cve")}`. -/
def buildCurrentMap (records : List PyVal) : List (String × PyVal) :=
  records.foldl baselineInsert []

/-- `to_write`: current records whose canonical serialization differs
from the baseline's entry (or that have no baseline entry). -/
def toWrite (baseline current : List (String × PyVal)) : List PyVal :=
  (current.filter (fun kv =>
    !(some (serialize_canonical kv.2)
      == (dictGet baseline kv.1).map serialize_canonical))).map (fun kv => kv.2)

/-- `_chunks`: accumulate and yield every `n` items, then the
remainder. -/
def chunksGo (n : Nat) : List α → List α → List (List α)
  | chunk, [] => if chunk.isEmpty then [] else [chunk]
  | chunk, x :: xs =>
    if n ≤ (chunk ++ [x]).length then (chunk ++ [x]) :: chunksGo n [] xs
    else chunksGo n (chunk ++ [x]) xs

def chunks (n : Nat) (l : List α) : List (List α) := chunksGo n [] l

/-- The write loop of `sync_epss_records_to_dynamodb_and_s3`: for each
chunk, write it to the store and fold its records into `baseline_map`;
the final `flush_to_s3` persists the resulting merged map. -/
def sync_epss_baseline (baseline : List (String × PyVal)) (records : List PyVal)
    (chunkSize : Nat) : List (String × PyVal) :=
  (chunks chunkSize (toWrite baseline (buildCurrentMap records))).foldl
    (fun m chunk => chunk.foldl baselineInsert m) baseline

lemma chunksGo_flatten (n : Nat) (l chunk : List α) :
    (chunksGo n chunk l).flatten = chunk ++ l := by
  induction l generalizing chunk with
  | nil =>
    unfold chunksGo
    by_cases h : chunk.isEmpty
    · rw [if_pos h]
      simp [List.isEmpty_iff.mp h]
    · rw [if_neg h]
      simp
  | cons x xs ih =>
    unfold chunksGo
    by_cases h : n ≤ (chunk ++ [x]).length
    · rw [if_pos h]
      rw [List.flatten_cons, ih []]
      simp
    · rw [if_neg h]
      rw [ih (chunk ++ [x])]
      simp

lemma chunks_flatten (n : Nat) (l : List α) : (chunks n l).flatten = l := by
  unfold chunks
  rw [chunksGo_flatten]
  rfl

lemma sync_epss_baseline_eq_foldl (baseline : List (String × PyVal))
    (records : List PyVal) (chunkSize : Nat) :
    sync_epss_baseline baseline records chunkSize
      = (toWrite baseline (buildCurrentMap records)).foldl baselineInsert baseline := by
  unfold sync_epss_baseline
  rw [← List.foldl_flatten, chunks_flatten]

lemma find_map_replace_ne {k k' : String} {v : PyVal} (m : List (String × PyVal))
    (h : k ≠ k') :
    (m.map (fun kv => if kv.1 = k' then (k', v) else kv)).find? (fun kv => kv.1 = k)
      = m.find? (fun kv => kv.1 = k) := by
  induction m with
  | nil => rfl
  | cons kv m ih =>
    simp only [List.map_cons]
    by_cases hk' : kv.1 = k'
    · rw [if_pos hk']
      rw [List.find?_cons_of_neg _ (by
          simp only [decide_eq_true_eq]
          exact fun h' => h h'.symm),
        List.find?_cons_of_neg _ (by
          simp only [hk', decide_eq_true_eq]
          exact fun h' => h h'.symm)]
      exact ih
    · rw [if_neg hk']
      by_cases hk : kv.1 = k
      · rw [List.find?_cons_of_pos _ (by simp [hk]), List.find?_cons_of_pos _ (by simp [hk])]
      · rw [List.find?_cons_of_neg _ (by simp [hk]), List.find?_cons_of_neg _ (by simp [hk])]
        exact ih

lemma find_map_replace_eq {k' : String} {v : PyVal} (m : List (String × PyVal))
    (hmem : (m.any (fun kv => kv.1 = k')) = true) :
    (m.map (fun kv => if kv.1 = k' then (k', v) else kv)).find? (fun kv => kv.1 = k')
      = some (k', v) := by
  induction m with
  | nil => simp at hmem
  | cons kv m ih =>
    simp only [List.map_cons]
    by_cases hk' : kv.1 = k'
    · rw [if_pos hk']
      rw [List.find?_cons_of_pos _ (by simp)]
    · rw [if_neg hk']
      rw [List.find?_cons_of_neg _ (by simp [hk'])]
      refine ih ?_
      simp only [List.any_cons, Bool.or_eq_true] at hmem
      rcases hmem with hmem | hmem
      · exact absurd (by simpa using hmem) hk'
      · exact hmem

lemma dictGet_upsert (m : List (String × PyVal)) (k' : String) (v : PyVal) (k : String) :
    dictGet (dictUpsert m k' v) k = if k = k' then some v else dictGet m k := by
  unfold dictUpsert dictGet
  by_cases hmem : m.any (fun kv => kv.1 = k')
  · rw [if_pos hmem]
    by_cases hkk : k = k'
    · rw [if_pos hkk, hkk, find_map_replace_eq m hmem]
      rfl
    · rw [if_neg hkk, find_map_replace_ne m hkk]
  · rw [if_neg hmem]
    rw [List.find?_append]
    by_cases hkk : k = k'
    · rw [if_pos hkk]
      have h0 : m.find? (fun kv => decide (kv.1 = k)) = none := by
        rw [List.find?_eq_none]
        intro x hx
        simp only [decide_eq_true_eq]
        intro hxk
        rw [List.any_eq_true] at hmem
        exact hmem ⟨x, hx, by simp [hxk, hkk.symm]⟩
      rw [h0, Option.none_or, List.find?_cons_of_pos _ (by simp [hkk.symm])]
      rfl
    · rw [if_neg hkk]
      rcases hf : m.find? (fun kv => decide (kv.1 = k)) with _ | kv
      · rw [hf, Option.none_or, List.find?_cons_of_neg _ (by
          simp only [decide_eq_true_eq]
          exact fun h' => hkk h'.symm)]
        rfl
      · rw [hf]
        rfl

lemma dictGet_upsert_isSome {m : List (String × PyVal)} {k k' : String} {v : PyVal}
    (h : (dictGet m k).isSome = true) :
    (dictGet (dictUpsert m k' v) k).isSome = true := by
  rw [dictGet_upsert]
  by_cases hkk : k = k'
  · rw [if_pos hkk]; rfl
  · rw [if_neg hkk]; exact h

lemma dictGet_upsert_other {m : List (String × PyVal)} {k k' : String} {v : PyVal}
    (h : k ≠ k') : dictGet (dictUpsert m k' v) k = dictGet m k := by
  rw [dictGet_upsert, if_neg h]

lemma baselineInsert_isSome {m : List (String × PyVal)} {r : PyVal} {k : String}
    (h : (dictGet m k).isSome = true) :
    (dictGet (baselineInsert m r) k).isSome = true := by
  unfold baselineInsert
  rcases recCve r with _ | s
  · exact h
  · exact dictGet_upsert_isSome h

lemma foldl_baselineInsert_isSome (l : List PyVal) :
    ∀ m : List (String × PyVal), ∀ k, (dictGet m k).isSome = true →
      (dictGet (l.foldl baselineInsert m) k).isSome = true := by
  induction l with
  | nil => exact fun m k h => h
  | cons r l ih =>
    intro m k h
    exact ih (baselineInsert m r) k (baselineInsert_isSome h)

lemma foldl_baselineInsert_other (l : List PyVal) :
    ∀ m : List (String × PyVal), ∀ k,
      (∀ r ∈ l, ∀ s, recCve r = some s → pyUpper s ≠ k) →
      dictGet (l.foldl baselineInsert m) k = dictGet m k := by
  induction l with
  | nil => exact fun m k _ => rfl
  | cons r l ih =>
    intro m k hno
    rw [List.foldl_cons]
    rw [ih (baselineInsert m r) k (fun r' hr' => hno r' (by simp [hr']))]
    unfold baselineInsert
    rcases hc : recCve r with _ | s
    · rfl
    · exact dictGet_upsert_other (fun h => hno r (by simp) s hc h.symm)

/-- C7: the baseline save is a merge, never a replacement: every key
present in the loaded baseline is still present after the pass (with
chunking folded in), and any key not written by the current pass keeps
its exact previous entry — records absent from the current pass are
retained, never dropped. -/
theorem baseline_never_shrinks (baseline : List (String × PyVal))
    (records : List PyVal) (chunkSize : Nat) (k : String) :
    ((dictGet baseline k).isSome = true →
      (dictGet (sync_epss_baseline baseline records chunkSize) k).isSome = true) ∧
      ((∀ r ∈ toWrite baseline (buildCurrentMap records), ∀ s,
          recCve r = some s → pyUpper s ≠ k) →
        dictGet (sync_epss_baseline baseline records chunkSize) k
          = dictGet baseline k) := by
  rw [sync_epss_baseline_eq_foldl]
  exact ⟨fun h => foldl_baselineInsert_isSome _ baseline k h,
    fun h => foldl_baselineInsert_other _ baseline k h⟩

/-- Witness for C7: a baseline holding `CVE-2019-0001` and a current
pass that writes only `CVE-2020-0001`; the old key survives the pass
with its entry intact. -/
theorem baseline_never_shrinks_witness :
    ((dictGet [("CVE-2019-0001", PyVal.dict [("cve", PyVal.str "cve-2019-0001")])]
        "CVE-2019-0001").isSome = true) ∧
      ((dictGet (sync_epss_baseline
          [("CVE-2019-0001", PyVal.dict [("cve", PyVal.str "cve-2019-0001")])]
          [PyVal.dict [("cve", PyVal.str "cve-2020-0001")]] 100)
          "CVE-2019-0001").isSome = true) := by
  have h : (dictGet [("CVE-2019-0001", PyVal.dict [("cve", PyVal.str "cve-2019-0001")])]
      "CVE-2019-0001").isSome = true := by
    simp [dictGet, List.find?]
  exact ⟨h, (baseline_never_shrinks
    [("CVE-2019-0001", PyVal.dict [("cve", PyVal.str "cve-2019-0001")])]
    [PyVal.dict [("cve", PyVal.str "cve-2020-0001")]] 100 "CVE-2019-0001").1 h⟩

end Epss

namespace Epss

instance : IsAntisymm (String × PyVal) (fun a b => a.1.data < b.1.data) :=
  ⟨fun _ _ h1 h2 => absurd h1 (lt_asymm h2)⟩

lemma str_data_inj {s t : String} (h : s.data = t.data) : s = t := by
  cases s
  cases t
  exact congrArg String.mk h

lemma sorted_key_eq {l1 l2 : List (String × PyVal)} (hp : l1.Perm l2)
    (hs1 : l1.Pairwise keyLE) (hs2 : l2.Pairwise keyLE)
    (hnd : (l1.map Prod.fst).Nodup) : l1 = l2 := by
  have hnd2 : (l2.map Prod.fst).Nodup := ((hp.map Prod.fst).nodup_iff).mp hnd
  have hlt1 : l1.Pairwise (fun a b => a.1.data < b.1.data) := by
    have hne : l1.Pairwise (fun a b => a.1 ≠ b.1) := List.pairwise_map.mp hnd
    exact (hs1.and hne).imp
      (fun h => lt_of_le_of_ne h.1 (fun hd => h.2 (str_data_inj hd)))
  have hlt2 : l2.Pairwise (fun a b => a.1.data < b.1.data) := by
    have hne : l2.Pairwise (fun a b => a.1 ≠ b.1) := List.pairwise_map.mp hnd2
    exact (hs2.and hne).imp
      (fun h => lt_of_le_of_ne h.1 (fun hd => h.2 (str_data_inj hd)))
  exact List.eq_of_perm_of_sorted hp hlt1 hlt2

lemma sortByKey_sorted (es : List (String × PyVal)) :
    (sortByKey es).Pairwise keyLE :=
  List.sorted_insertionSort keyLE es

lemma sortByKey_perm (es : List (String × PyVal)) : (sortByKey es).Perm es :=
  List.perm_insertionSort keyLE es

lemma sortByKey_eq_of_perm {es es' : List (String × PyVal)} (hp : es.Perm es')
    (hnd : (es.map Prod.fst).Nodup) : sortByKey es = sortByKey es' := by
  refine sorted_key_eq ?_ (sortByKey_sorted es) (sortByKey_sorted es') ?_
  · exact ((sortByKey_perm es).trans hp).trans (sortByKey_perm es').symm
  · exact (((sortByKey_perm es).map Prod.fst).nodup_iff).mpr hnd

lemma sortByKey_eq_self {l : List (String × PyVal)} (hs : l.Pairwise keyLE)
    (hnd : (l.map Prod.fst).Nodup) : sortByKey l = l := by
  refine sorted_key_eq (sortByKey_perm l) (sortByKey_sorted l) hs ?_
  exact (((sortByKey_perm l).map Prod.fst).nodup_iff).mpr hnd

lemma sortByKey_map_keep {f : (String × PyVal) → (String × PyVal)}
    (hf : ∀ kv, (f kv).1 = kv.1) {es : List (String × PyVal)}
    (hnd : (es.map Prod.fst).Nodup) :
    sortByKey (es.map f) = (sortByKey es).map f := by
  have hkeys : (es.map f).map Prod.fst = es.map Prod.fst := by
    rw [List.map_map]
    exact List.map_congr_left (fun kv _ => hf kv)
  refine sorted_key_eq ?_ (sortByKey_sorted _) ?_ ?_
  · exact ((sortByKey_perm (es.map f)).trans ((sortByKey_perm es).map f).symm)
  · rw [List.pairwise_map]
    refine (sortByKey_sorted es).imp ?_
    intro a b h
    show (f a).1.data ≤ (f b).1.data
    rw [hf a, hf b]
    exact h
  · rw [(((sortByKey_perm (es.map f)).map Prod.fst).nodup_iff), hkeys]
    exact hnd

/-- The canonical `.dict` and `.list` equations of
`_canonical_for_compare` with the termination bookkeeping removed. -/
lemma canonical_dict (es : List (String × PyVal)) :
    canonical (.dict es)
      = .dict (((sortByKey es).filter (fun kv => !volatile kv.1)).map
          (fun kv => (kv.1, canonical kv.2))) := by
  rw [canonical]
  exact congrArg PyVal.dict (List.attach_map_val _ (fun p : String × PyVal => (p.1, canonical p.2)))

lemma canonical_list (xs : List PyVal) :
    canonical (.list xs) = .list (xs.map canonical) := by
  rw [canonical]
  exact congrArg PyVal.list (List.attach_map_val _ canonical)

lemma render_dict (es : List (String × PyVal)) :
    render (.dict es)
      = '\x7b' :: (joinComma ((sortByKey es).map
          (fun kv => jsonStr kv.1 ++ ':' :: render kv.2)) ++ ['\x7d']) := by
  rw [render]
  exact congrArg _ (congrArg (fun l => joinComma l ++ ['\x7d'])
    (List.attach_map_val _ (fun p : String × PyVal => jsonStr p.1 ++ ':' :: render p.2)))

end Epss

namespace Epss

/-- Replace the value stored under one key (other entries untouched). -/
def setKey (es : List (String × PyVal)) (k : String) (w : PyVal) :
    List (String × PyVal) :=
  es.map (fun kv => if kv.1 = k then (kv.1, w) else kv)

lemma setKey_fst (k : String) (w : PyVal) (kv : String × PyVal) :
    ((fun kv : String × PyVal => if kv.1 = k then (kv.1, w) else kv) kv).1 = kv.1 := by
  show (if kv.1 = k then (kv.1, w) else kv).1 = kv.1
  by_cases h : kv.1 = k
  · rw [if_pos h]
  · rw [if_neg h]

lemma filter_key_map {f : (String × PyVal) → (String × PyVal)}
    (hf : ∀ kv, (f kv).1 = kv.1) {p : String → Bool} (l : List (String × PyVal)) :
    (l.map f).filter (fun kv => p kv.1) = (l.filter (fun kv => p kv.1)).map f := by
  induction l with
  | nil => rfl
  | cons kv l ih =>
    simp only [List.map_cons, List.filter_cons, hf kv]
    by_cases hp : p kv.1
    · rw [hp]
      simp only [if_true, List.map_cons]
      rw [ih]
    · rw [show p kv.1 = false by simp [hp]]
      simp only [Bool.false_eq_true, if_false]
      exact ih

lemma filter_setKey_volatile {es : List (String × PyVal)} (w : PyVal) :
    (setKey es "date_updated" w).filter (fun kv => !volatile kv.1)
      = es.filter (fun kv => !volatile kv.1) := by
  unfold setKey
  induction es with
  | nil => rfl
  | cons kv es ih =>
    simp only [List.map_cons, List.filter_cons]
    by_cases hk : kv.1 = "date_updated"
    · rw [if_pos hk]
      rw [show (!volatile kv.1) = false by simp [volatile, hk]]
      simp only [Bool.false_eq_true, if_false]
      exact ih
    · rw [if_neg hk]
      by_cases hv : (!volatile kv.1) = true
      · rw [hv]
        simp only [if_true]
        rw [ih]
      · rw [show (!volatile kv.1) = false by simpa using hv]
        simp only [Bool.false_eq_true, if_false]
        exact ih

/-- Atomic (non-container) values: canonicalization leaves them
untouched. -/
def isAtom : PyVal → Bool
  | .str _ => true
  | .int _ => true
  | .bool _ => true
  | .none => true
  | .list _ => false
  | .dict _ => false

lemma canonical_atom {v : PyVal} (h : isAtom v = true) : canonical v = v := by
  cases v with
  | str s => rw [canonical]
  | int n => rw [canonical]
  | bool b => rw [canonical]
  | none => rw [canonical]
  | list xs => simp [isAtom] at h
  | dict es => simp [isAtom] at h

/-- Permutation invariance of the canonical form (C6, first part, at
the level of `_canonical_for_compare`). -/
lemma canonical_dict_perm {es es' : List (String × PyVal)} (hp : es.Perm es')
    (hnd : (es.map Prod.fst).Nodup) :
    canonical (.dict es) = canonical (.dict es') := by
  rw [canonical_dict, canonical_dict, sortByKey_eq_of_perm hp hnd]

/-- Volatile-field invariance of the canonical form (C6, second part,
at the level of `_canonical_for_compare`). -/
lemma canonical_dict_volatile {es : List (String × PyVal)} (w : PyVal)
    (hnd : (es.map Prod.fst).Nodup) :
    canonical (.dict (setKey es "date_updated" w)) = canonical (.dict es) := by
  rw [canonical_dict, canonical_dict]
  unfold setKey
  rw [sortByKey_map_keep (setKey_fst "date_updated" w) hnd]
  rw [show (sortByKey es).map
      (fun kv => if kv.1 = "date_updated" then (kv.1, w) else kv)
      = setKey (sortByKey es) "date_updated" w from rfl]
  rw [filter_setKey_volatile]

end Epss

namespace Epss

/-- Code point encoded by a short escape letter. -/
def escLetterVal (e : Char) : Nat :=
  if e = '"' then 34 else if e = '\\' then 92
  else if e = 'b' then 8 else if e = 'f' then 12
  else if e = 'n' then 10 else if e = 'r' then 13
  else if e = 't' then 9 else 0

/-- Decoder for the escape code: recovers the code points of the
original string from its escaped form (used to prove the escape
injective). -/
def unescN : List Char → List Nat
  | [] => []
  | c :: r =>
    if c = '\\' then
      match r with
      | [] => []
      | e :: r2 =>
        if e = 'u' then
          match r2 with
          | a :: b :: c2 :: d :: r3 =>
            (hexVal a * 4096 + hexVal b * 256 + hexVal c2 * 16 + hexVal d) :: unescN r3
          | _ => []
        else escLetterVal e :: unescN r2
    else c.toNat :: unescN r

lemma char_toNat_inj {c d : Char} (h : c.toNat = d.toNat) : c = d := by
  unfold Char.toNat at h
  exact Char.ext (UInt32.eq_of_val_eq (Fin.ext h))

lemma hexVal_hexDigit : ∀ n, n < 16 → hexVal (hexDigit n) = n := by decide

lemma unescN_cons_plain {c : Char} (h : c ≠ '\\') (t : List Char) :
    unescN (c :: t) = c.toNat :: unescN t := by
  rw [unescN.eq_def]
  dsimp only
  rw [if_neg h]

lemma unescN_esc2 (e : Char) (he : e ≠ 'u') (t : List Char) :
    unescN ('\\' :: e :: t) = escLetterVal e :: unescN t := by
  rw [unescN.eq_def]
  dsimp only
  rw [if_pos rfl, if_neg he]

lemma unescN_escu (a b c2 d : Char) (t : List Char) :
    unescN ('\\' :: 'u' :: a :: b :: c2 :: d :: t)
      = (hexVal a * 4096 + hexVal b * 256 + hexVal c2 * 16 + hexVal d) :: unescN t := by
  rw [unescN.eq_def]
  dsimp only
  rw [if_pos rfl, if_pos rfl]

lemma unescN_escChar (c : Char) (t : List Char) :
    unescN (escChar c ++ t) = c.toNat :: unescN t := by
  unfold escChar
  by_cases h1 : c = '"'
  · rw [if_pos h1, h1]
    show unescN ('\\' :: '"' :: t) = _
    rw [unescN_esc2 _ (by decide) t]
    rw [show escLetterVal '"' = Char.toNat '"' from by decide]
  · rw [if_neg h1]
    by_cases h2 : c = '\\'
    · rw [if_pos h2, h2]
      show unescN ('\\' :: '\\' :: t) = _
      rw [unescN_esc2 _ (by decide) t]
      rw [show escLetterVal '\\' = Char.toNat '\\' from by decide]
    · rw [if_neg h2]
      by_cases h3 : c.toNat = 8
      · rw [if_pos h3]
        show unescN ('\\' :: 'b' :: t) = _
        rw [unescN_esc2 _ (by decide) t]
        rw [show escLetterVal 'b' = 8 from by decide, h3]
      · rw [if_neg h3]
        by_cases h4 : c.toNat = 9
        · rw [if_pos h4]
          show unescN ('\\' :: 't' :: t) = _
          rw [unescN_esc2 _ (by decide) t]
          rw [show escLetterVal 't' = 9 from by decide, h4]
        · rw [if_neg h4]
          by_cases h5 : c.toNat = 10
          · rw [if_pos h5]
            show unescN ('\\' :: 'n' :: t) = _
            rw [unescN_esc2 _ (by decide) t]
            rw [show escLetterVal 'n' = 10 from by decide, h5]
          · rw [if_neg h5]
            by_cases h6 : c.toNat = 12
            · rw [if_pos h6]
              show unescN ('\\' :: 'f' :: t) = _
              rw [unescN_esc2 _ (by decide) t]
              rw [show escLetterVal 'f' = 12 from by decide, h6]
            · rw [if_neg h6]
              by_cases h7 : c.toNat = 13
              · rw [if_pos h7]
                show unescN ('\\' :: 'r' :: t) = _
                rw [unescN_esc2 _ (by decide) t]
                rw [show escLetterVal 'r' = 13 from by decide, h7]
              · rw [if_neg h7]
                by_cases h8 : c.toNat < 32
                · rw [if_pos h8]
                  show unescN ('\\' :: 'u' :: '0' :: '0' ::
                    hexDigit (c.toNat / 16) :: hexDigit (c.toNat % 16) :: t) = _
                  rw [unescN_escu]
                  have hdiv : hexVal (hexDigit (c.toNat / 16)) = c.toNat / 16 :=
                    hexVal_hexDigit _ (by omega)
                  have hmod : hexVal (hexDigit (c.toNat % 16)) = c.toNat % 16 :=
                    hexVal_hexDigit _ (Nat.mod_lt _ (by omega))
                  rw [hdiv, hmod]
                  have heq : hexVal '0' * 4096 + hexVal '0' * 256
                      + c.toNat / 16 * 16 + c.toNat % 16 = c.toNat := by
                    have h0 : hexVal '0' = 0 := by decide
                    rw [h0]
                    omega
                  rw [heq]
                · rw [if_neg h8]
                  exact unescN_cons_plain h2 t

lemma unescN_escList (l : List Char) : unescN (escList l) = l.map Char.toNat := by
  induction l with
  | nil => rfl
  | cons c l ih =>
    show unescN (escChar c ++ escList l) = _
    rw [unescN_escChar, ih]
    rfl

lemma escList_inj {a b : List Char} (h : escList a = escList b) : a = b := by
  have h2 := congrArg unescN h
  rw [unescN_escList, unescN_escList] at h2
  clear h
  induction a generalizing b with
  | nil => cases b with
    | nil => rfl
    | cons x xs => simp at h2
  | cons x xs ih =>
    cases b with
    | nil => simp at h2
    | cons y ys =>
      simp only [List.map_cons, List.cons.injEq] at h2
      rw [char_toNat_inj h2.1, ih h2.2]

lemma jsonStr_inj {s t : String} (h : jsonStr s = jsonStr t) : s = t := by
  unfold jsonStr at h
  simp only [List.cons.injEq, true_and] at h
  exact str_data_inj (escList_inj (List.append_cancel_right h))

end Epss

namespace Epss

/-- Decimal value of a digit list (decoder for `natDec`). -/
def decVal (ds : List Char) : Nat :=
  ds.foldl (fun a c => a * 10 + (c.toNat - 48)) 0

lemma decVal_append_digit (a : List Char) (c : Char) :
    decVal (a ++ [c]) = decVal a * 10 + (c.toNat - 48) := by
  unfold decVal
  rw [List.foldl_append]
  rfl

lemma decVal_natDec (n : Nat) : decVal (natDec n) = n := by
  induction n using Nat.strong_induction_on with
  | _ n ih =>
    rw [natDec]
    by_cases h : n < 10
    · rw [if_pos h]
      exact (show ∀ m, m < 10 → decVal [hexDigit m] = m by decide) n h
    · rw [if_neg h]
      rw [decVal_append_digit, ih (n / 10) (Nat.div_lt_self (by omega) (by omega))]
      have hm := (show ∀ m, m < 10 → (hexDigit m).toNat - 48 = m by decide)
        (n % 10) (Nat.mod_lt _ (by omega))
      omega

lemma natDec_inj {n m : Nat} (h : natDec n = natDec m) : n = m := by
  have := congrArg decVal h
  rw [decVal_natDec, decVal_natDec] at this
  exact this

lemma natDec_ne_nil (n : Nat) : natDec n ≠ [] := by
  rw [natDec]
  by_cases h : n < 10
  · rw [if_pos h]; simp
  · rw [if_neg h]; simp

lemma natDec_digits (n : Nat) : ∀ c ∈ natDec n, c.isDigit = true := by
  induction n using Nat.strong_induction_on with
  | _ n ih =>
    rw [natDec]
    by_cases h : n < 10
    · rw [if_pos h]
      intro c hc
      simp only [List.mem_singleton] at hc
      subst hc
      exact (show ∀ m, m < 10 → (hexDigit m).isDigit = true by decide) n h
    · rw [if_neg h]
      intro c hc
      rcases List.mem_append.mp hc with hc | hc
      · exact ih (n / 10) (Nat.div_lt_self (by omega) (by omega)) c hc
      · simp only [List.mem_singleton] at hc
        subst hc
        exact (show ∀ m, m < 10 → (hexDigit m).isDigit = true by decide)
          (n % 10) (Nat.mod_lt _ (by omega))

lemma intDec_inj {n m : Int} (h : intDec n = intDec m) : n = m := by
  unfold intDec at h
  by_cases hn : n < 0 <;> by_cases hm : m < 0
  · rw [if_pos hn, if_pos hm] at h
    simp only [List.cons.injEq, true_and] at h
    have := natDec_inj h
    omega
  · rw [if_pos hn, if_neg hm] at h
    rcases hd : natDec m.toNat with _ | ⟨c, r⟩
    · exact absurd hd (natDec_ne_nil _)
    · rw [hd] at h
      simp only [List.cons.injEq] at h
      have hdig := natDec_digits m.toNat c (by rw [hd]; simp)
      rw [← h.1] at hdig
      exact absurd hdig (by decide)
  · rw [if_neg hn, if_pos hm] at h
    rcases hd : natDec n.toNat with _ | ⟨c, r⟩
    · exact absurd hd (natDec_ne_nil _)
    · rw [hd] at h
      simp only [List.cons.injEq] at h
      have hdig := natDec_digits n.toNat c (by rw [hd]; simp)
      rw [h.1] at hdig
      exact absurd hdig (by decide)
  · rw [if_neg hn, if_neg hm] at h
    have := natDec_inj h
    omega

/-- First-character class of an atom's rendering: strings, numbers,
booleans and null all start in disjoint character classes. -/
def headClass (c : Char) : Nat :=
  if c = '"' then 0
  else if c.isDigit || c = '-' then 1
  else if c = 't' || c = 'f' then 2
  else 3

def atomClass : PyVal → Nat
  | .str _ => 0
  | .int _ => 1
  | .bool _ => 2
  | .none => 3
  | .list _ => 4
  | .dict _ => 4

lemma render_head {v : PyVal} (hv : isAtom v = true) :
    ∃ c r, render v = c :: r ∧ headClass c = atomClass v := by
  cases v with
  | str s =>
    refine ⟨'"', escList s.data ++ ['"'], ?_, rfl⟩
    rw [render]
    rfl
  | int n =>
    rw [show render (.int n) = intDec n from by rw [render]]
    unfold intDec
    by_cases hn : n < 0
    · rw [if_pos hn]
      exact ⟨'-', natDec (-n).toNat, rfl, rfl⟩
    · rw [if_neg hn]
      rcases hd : natDec n.toNat with _ | ⟨c, r⟩
      · exact absurd hd (natDec_ne_nil _)
      · have hdig := natDec_digits n.toNat c (by rw [hd]; simp)
        refine ⟨c, r, rfl, ?_⟩
        unfold headClass
        rw [if_neg (by rintro rfl; exact absurd hdig (by decide))]
        rw [if_pos (by simp [hdig])]
        rfl
  | bool b =>
    cases b with
    | true =>
      refine ⟨'t', ['r', 'u', 'e'], ?_, rfl⟩
      rw [render]
    | false =>
      refine ⟨'f', ['a', 'l', 's', 'e'], ?_, rfl⟩
      rw [render]
  | none =>
    refine ⟨'n', ['u', 'l', 'l'], ?_, rfl⟩
    rw [render]
  | list xs => simp [isAtom] at hv
  | dict es => simp [isAtom] at hv

lemma render_atom_inj {v w : PyVal} (hv : isAtom v = true) (hw : isAtom w = true)
    (hne : v ≠ w) : render v ≠ render w := by
  intro hEq
  have hclass : atomClass v = atomClass w := by
    obtain ⟨c, r, hvr, hvc⟩ := render_head hv
    obtain ⟨c', r', hwr, hwc⟩ := render_head hw
    rw [hvr, hwr] at hEq
    simp only [List.cons.injEq] at hEq
    rw [← hvc, ← hwc, hEq.1]
  cases v with
  | str s =>
    cases w with
    | str t =>
      rw [show render (.str s) = jsonStr s from by rw [render],
        show render (.str t) = jsonStr t from by rw [render]] at hEq
      exact hne (congrArg PyVal.str (jsonStr_inj hEq))
    | int n => simp [atomClass] at hclass
    | bool b => simp [atomClass] at hclass
    | none => simp [atomClass] at hclass
    | list xs => simp [isAtom] at hw
    | dict es => simp [isAtom] at hw
  | int n =>
    cases w with
    | str t => simp [atomClass] at hclass
    | int m =>
      rw [show render (.int n) = intDec n from by rw [render],
        show render (.int m) = intDec m from by rw [render]] at hEq
      exact hne (congrArg PyVal.int (intDec_inj hEq))
    | bool b => simp [atomClass] at hclass
    | none => simp [atomClass] at hclass
    | list xs => simp [isAtom] at hw
    | dict es => simp [isAtom] at hw
  | bool b =>
    cases w with
    | str t => simp [atomClass] at hclass
    | int m => simp [atomClass] at hclass
    | bool b' =>
      cases b <;> cases b'
      · exact hne rfl
      · rw [show render (.bool false) = ['f','a','l','s','e'] from by rw [render],
          show render (.bool true) = ['t','r','u','e'] from by rw [render]] at hEq
        simp at hEq
      · rw [show render (.bool true) = ['t','r','u','e'] from by rw [render],
          show render (.bool false) = ['f','a','l','s','e'] from by rw [render]] at hEq
        simp at hEq
      · exact hne rfl
    | none => simp [atomClass] at hclass
    | list xs => simp [isAtom] at hw
    | dict es => simp [isAtom] at hw
  | none =>
    cases w with
    | str t => simp [atomClass] at hclass
    | int m => simp [atomClass] at hclass
    | bool b => simp [atomClass] at hclass
    | none => exact hne rfl
    | list xs => simp [isAtom] at hw
    | dict es => simp [isAtom] at hw
  | list xs => simp [isAtom] at hv
  | dict es => simp [isAtom] at hv

lemma joinComma_cons (x : List Char) {l : List (List Char)} (h : l ≠ []) :
    joinComma (x :: l) = x ++ ',' :: joinComma l := by
  cases l with
  | nil => exact absurd rfl h
  | cons y ys => rfl

lemma joinComma_ne {m m' : List Char} (h : m ≠ m') :
    ∀ (X : List (List Char)) (Y : List (List Char)),
      joinComma (X ++ m :: Y) ≠ joinComma (X ++ m' :: Y) := by
  intro X
  induction X with
  | nil =>
    intro Y hEq
    cases Y with
    | nil => exact h hEq
    | cons y ys =>
      rw [List.nil_append, List.nil_append,
        joinComma_cons m (by simp), joinComma_cons m' (by simp)] at hEq
      have hlen : m.length = m'.length := by
        have := congrArg List.length hEq
        simp only [List.length_append, List.length_cons] at this
        omega
      exact h (List.append_inj hEq hlen).1
  | cons x X ih =>
    intro Y hEq
    rw [List.cons_append, List.cons_append,
      joinComma_cons x (by simp), joinComma_cons x (by simp)] at hEq
    have h2 := List.append_cancel_left hEq
    simp only [List.cons.injEq, true_and] at h2
    exact ih Y h2

end Epss

namespace Epss

lemma serialize_dict_sensitive {es : List (String × PyVal)} {k : String} {v w : PyVal}
    (hnd : (es.map Prod.fst).Nodup) (hmem : (k, v) ∈ es) (hk : k ≠ "date_updated")
    (hv : isAtom v = true) (hw : isAtom w = true) (hne : v ≠ w) :
    serialize_canonical (.dict es) ≠ serialize_canonical (.dict (setKey es k w)) := by
  intro hEq0
  have hEq : render (canonical (.dict es))
      = render (canonical (.dict (setKey es k w))) := by
    unfold serialize_canonical at hEq0
    exact congrArg String.data hEq0
  rw [canonical_dict, canonical_dict] at hEq
  rw [show sortByKey (setKey es k w) = setKey (sortByKey es) k w from by
    unfold setKey
    exact sortByKey_map_keep (setKey_fst k w) hnd] at hEq
  rw [show (setKey (sortByKey es) k w).filter (fun kv => !volatile kv.1)
      = setKey ((sortByKey es).filter (fun kv => !volatile kv.1)) k w from by
    unfold setKey
    exact filter_key_map (p := fun s => !volatile s) (setKey_fst k w) _] at hEq
  set SF := (sortByKey es).filter (fun kv => !volatile kv.1) with hSFdef
  have hpSF : SF.Pairwise keyLE := by
    rw [hSFdef]
    exact List.Pairwise.sublist (List.filter_sublist _) (sortByKey_sorted es)
  have hndSF : (SF.map Prod.fst).Nodup := by
    rw [hSFdef]
    have h1 : ((sortByKey es).map Prod.fst).Nodup :=
      (((sortByKey_perm es).map Prod.fst).nodup_iff).mpr hnd
    exact List.Nodup.sublist ((List.filter_sublist _).map Prod.fst) h1
  have hSFmem : (k, v) ∈ SF := by
    rw [hSFdef]
    refine List.mem_filter.mpr ⟨(sortByKey_perm es).mem_iff.mpr hmem, ?_⟩
    simp [volatile, hk]
  rw [show setKey SF k w
      = SF.map (fun kv => if kv.1 = k then (kv.1, w) else kv) from rfl,
    List.map_map] at hEq
  have hp1 : (SF.map (fun kv => (kv.1, canonical kv.2))).Pairwise keyLE :=
    List.pairwise_map.mpr (hpSF.imp (fun h => h))
  have hnd1 : ((SF.map (fun kv => (kv.1, canonical kv.2))).map Prod.fst).Nodup := by
    rw [List.map_map]
    exact hndSF
  have hp2 : (SF.map ((fun kv : String × PyVal => (kv.1, canonical kv.2)) ∘
      (fun kv => if kv.1 = k then (kv.1, w) else kv))).Pairwise keyLE := by
    refine List.pairwise_map.mpr (hpSF.imp ?_)
    intro a b h
    show ((fun kv : String × PyVal => if kv.1 = k then (kv.1, w) else kv) a).1.data
      ≤ ((fun kv : String × PyVal => if kv.1 = k then (kv.1, w) else kv) b).1.data
    rw [setKey_fst k w a, setKey_fst k w b]
    exact h
  have hnd2 : ((SF.map ((fun kv : String × PyVal => (kv.1, canonical kv.2)) ∘
      (fun kv => if kv.1 = k then (kv.1, w) else kv))).map Prod.fst).Nodup := by
    rw [List.map_map]
    rw [show (Prod.fst ∘ ((fun kv : String × PyVal => (kv.1, canonical kv.2)) ∘
        (fun kv => if kv.1 = k then (kv.1, w) else kv)))
        = fun kv : String × PyVal => kv.1 from by
      funext kv
      show ((fun kv : String × PyVal => if kv.1 = k then (kv.1, w) else kv) kv).1 = kv.1
      exact setKey_fst k w kv]
    exact hndSF
  rw [render_dict, render_dict, sortByKey_eq_self hp1 hnd1,
    sortByKey_eq_self hp2 hnd2] at hEq
  simp only [List.cons.injEq, true_and] at hEq
  have hJC := List.append_cancel_right hEq
  rw [List.map_map, List.map_map] at hJC
  obtain ⟨A, B, hAB⟩ := List.append_of_mem hSFmem
  rw [hAB] at hJC hndSF
  rw [List.map_append, List.map_cons, List.map_append, List.map_cons] at hJC
  rw [List.map_append, List.map_cons] at hndSF
  rw [List.nodup_append] at hndSF
  obtain ⟨hndA, hndKB, hdsj⟩ := hndSF
  have hkB : k ∉ B.map Prod.fst := by
    have := (List.nodup_cons.mp hndKB).1
    simpa using this
  have hkA : k ∉ A.map Prod.fst := fun hka => hdsj hka (by simp)
  have hgA : A.map ((fun kv : String × PyVal => jsonStr kv.1 ++ ':' :: render kv.2) ∘
        ((fun kv : String × PyVal => (kv.1, canonical kv.2)) ∘
          (fun kv => if kv.1 = k then (kv.1, w) else kv)))
      = A.map ((fun kv : String × PyVal => jsonStr kv.1 ++ ':' :: render kv.2) ∘
        (fun kv : String × PyVal => (kv.1, canonical kv.2))) := by
    refine List.map_congr_left ?_
    intro kv hkv
    have hkvk : kv.1 ≠ k := fun he => hkA (List.mem_map.mpr ⟨kv, hkv, he⟩)
    show ((fun kv : String × PyVal => jsonStr kv.1 ++ ':' :: render kv.2)
      ((fun kv : String × PyVal => (kv.1, canonical kv.2))
        (if kv.1 = k then (kv.1, w) else kv))) = _
    rw [if_neg hkvk]
    rfl
  have hgB : B.map ((fun kv : String × PyVal => jsonStr kv.1 ++ ':' :: render kv.2) ∘
        ((fun kv : String × PyVal => (kv.1, canonical kv.2)) ∘
          (fun kv => if kv.1 = k then (kv.1, w) else kv)))
      = B.map ((fun kv : String × PyVal => jsonStr kv.1 ++ ':' :: render kv.2) ∘
        (fun kv : String × PyVal => (kv.1, canonical kv.2))) := by
    refine List.map_congr_left ?_
    intro kv hkv
    have hkvk : kv.1 ≠ k := fun he => hkB (List.mem_map.mpr ⟨kv, hkv, he⟩)
    show ((fun kv : String × PyVal => jsonStr kv.1 ++ ':' :: render kv.2)
      ((fun kv : String × PyVal => (kv.1, canonical kv.2))
        (if kv.1 = k then (kv.1, w) else kv))) = _
    rw [if_neg hkvk]
    rfl
  rw [hgA, hgB] at hJC
  have hmid1 : ((fun kv : String × PyVal => jsonStr kv.1 ++ ':' :: render kv.2) ∘
      (fun kv : String × PyVal => (kv.1, canonical kv.2))) (k, v)
      = jsonStr k ++ ':' :: render v := by
    show jsonStr k ++ ':' :: render (canonical v) = _
    rw [canonical_atom hv]
  have hmid2 : ((fun kv : String × PyVal => jsonStr kv.1 ++ ':' :: render kv.2) ∘
      ((fun kv : String × PyVal => (kv.1, canonical kv.2)) ∘
        (fun kv => if kv.1 = k then (kv.1, w) else kv))) (k, v)
      = jsonStr k ++ ':' :: render w := by
    simp only [Function.comp_apply, if_true]
    show jsonStr k ++ ':' :: render (canonical w) = _
    rw [canonical_atom hw]
  rw [hmid1, hmid2] at hJC
  have hmne : jsonStr k ++ ':' :: render v ≠ jsonStr k ++ ':' :: render w := by
    intro hm
    have h2 := List.append_cancel_left hm
    simp only [List.cons.injEq, true_and] at h2
    exact render_atom_inj hv hw hne h2
  exact joinComma_ne hmne _ _ hJC

end Epss

namespace Epss

/-- C6 (counterexample): changing the value of the included field
`"score"` — from a nested dict whose only entry is the volatile
`date_updated` to one with a different value there — leaves the
canonical serialization unchanged, because `_canonical_for_compare`
strips `date_updated` at every nesting level.  So "changing the value
of any included field changes the hash" is false as stated. -/
theorem included_field_change_counterexample :
    dictGet [("cve", PyVal.str "CVE-2020-0001"),
        ("score", PyVal.dict [("date_updated", PyVal.str "A")])] "score"
      ≠ dictGet [("cve", PyVal.str "CVE-2020-0001"),
        ("score", PyVal.dict [("date_updated", PyVal.str "B")])] "score" ∧
    serialize_canonical (.dict [("cve", PyVal.str "CVE-2020-0001"),
        ("score", PyVal.dict [("date_updated", PyVal.str "A")])])
      = serialize_canonical (.dict [("cve", PyVal.str "CVE-2020-0001"),
        ("score", PyVal.dict [("date_updated", PyVal.str "B")])]) := by
  constructor
  · simp [dictGet, List.find?]
  · have hinnerA : canonical (PyVal.dict [("date_updated", PyVal.str "A")])
        = PyVal.dict [] := by
      rw [canonical_dict]
      rfl
    have hinnerB : canonical (PyVal.dict [("date_updated", PyVal.str "B")])
        = PyVal.dict [] := by
      rw [canonical_dict]
      rfl
    have h1 : canonical (PyVal.dict [("cve", PyVal.str "CVE-2020-0001"),
        ("score", PyVal.dict [("date_updated", PyVal.str "A")])])
        = PyVal.dict [("cve", canonical (PyVal.str "CVE-2020-0001")),
          ("score", canonical (PyVal.dict [("date_updated", PyVal.str "A")]))] := by
      rw [canonical_dict]
      rfl
    have h2 : canonical (PyVal.dict [("cve", PyVal.str "CVE-2020-0001"),
        ("score", PyVal.dict [("date_updated", PyVal.str "B")])])
        = PyVal.dict [("cve", canonical (PyVal.str "CVE-2020-0001")),
          ("score", canonical (PyVal.dict [("date_updated", PyVal.str "B")]))] := by
      rw [canonical_dict]
      rfl
    unfold serialize_canonical
    rw [h1, h2, hinnerA, hinnerB]

/-- C6 (amended): the canonical content serialization of
`_canonical_for_compare`/`_serialize_canonical` is stable under
reordering a record's fields and under changing only the excluded
volatile field `date_updated`; and changing the value of an included
field to a different atomic value does change it.  (The claim as
stated fails only when the change to an included field is confined to
excluded volatile subfields, as in the counterexample.) -/
theorem hash_baseline_stability :
    (∀ es es' : List (String × PyVal), es.Perm es' → (es.map Prod.fst).Nodup →
      serialize_canonical (.dict es) = serialize_canonical (.dict es')) ∧
    (∀ (es : List (String × PyVal)) (w : PyVal), (es.map Prod.fst).Nodup →
      serialize_canonical (.dict (setKey es "date_updated" w))
        = serialize_canonical (.dict es)) ∧
    (∀ (es : List (String × PyVal)) (k : String) (v w : PyVal),
      (es.map Prod.fst).Nodup → (k, v) ∈ es → k ≠ "date_updated" →
      isAtom v = true → isAtom w = true → v ≠ w →
      serialize_canonical (.dict es) ≠ serialize_canonical (.dict (setKey es k w))) := by
  refine ⟨?_, ?_, ?_⟩
  · intro es es' hp hnd
    unfold serialize_canonical
    rw [canonical_dict_perm hp hnd]
  · intro es w hnd
    unfold serialize_canonical
    rw [canonical_dict_volatile w hnd]
  · exact fun es k v w hnd hmem hk hv hw hne =>
      serialize_dict_sensitive hnd hmem hk hv hw hne

/-- Witness for C6 (amended): a concrete two-field record; swapping
its fields or rewriting its `date_updated` leaves the serialization
unchanged, while bumping the included `epss` value changes it. -/
theorem hash_baseline_stability_witness :
    ([("cve", PyVal.str "X"), ("epss", PyVal.int 1)].Perm
        [("epss", PyVal.int 1), ("cve", PyVal.str "X")] ∧
      (([("cve", PyVal.str "X"), ("epss", PyVal.int 1)] :
        List (String × PyVal)).map Prod.fst).Nodup) ∧
    serialize_canonical (.dict [("cve", PyVal.str "X"), ("epss", PyVal.int 1)])
      = serialize_canonical (.dict [("epss", PyVal.int 1), ("cve", PyVal.str "X")]) ∧
    serialize_canonical (.dict (setKey [("cve", PyVal.str "X"),
        ("date_updated", PyVal.str "A")] "date_updated" (PyVal.str "B")))
      = serialize_canonical (.dict [("cve", PyVal.str "X"),
        ("date_updated", PyVal.str "A")]) ∧
    serialize_canonical (.dict [("cve", PyVal.str "X"), ("epss", PyVal.int 1)])
      ≠ serialize_canonical (.dict (setKey [("cve", PyVal.str "X"),
        ("epss", PyVal.int 1)] "epss" (PyVal.int 2))) := by
  have hperm : ([("cve", PyVal.str "X"), ("epss", PyVal.int 1)] :
      List (String × PyVal)).Perm [("epss", PyVal.int 1), ("cve", PyVal.str "X")] :=
    List.Perm.swap _ _ _
  have hnd : (([("cve", PyVal.str "X"), ("epss", PyVal.int 1)] :
      List (String × PyVal)).map Prod.fst).Nodup := by decide
  refine ⟨⟨hperm, hnd⟩, ?_, ?_, ?_⟩
  · exact hash_baseline_stability.1 _ _ hperm hnd
  · exact hash_baseline_stability.2.1 _ (PyVal.str "B") (by decide)
  · exact hash_baseline_stability.2.2 _ "epss" (PyVal.int 1) (PyVal.int 2)
      hnd (by simp) (by decide) rfl rfl (by simp)

end Epss
